import Mathlib

/-!
Verification development for the ProPhotoRenamer template-driven batch
rename engine (`src/lib/utils/rename.ts`) and its archive assembler
(`src/lib/utils/zip.ts`).

Strings are modelled as `List Char` (the carrier of Lean's `String`), and
JavaScript numbers as `ℚ` (exact rationals; the code under verification
performs no operation whose rounding behaviour matters to the claims,
except `Math.round`, which is modelled exactly).  JavaScript's
`string.replace(/pat/g, rep)` for a literal pattern is modelled by a
left-to-right non-overlapping scanner.  Loops of the source that are
bounded by the length of their input are modelled with an explicit fuel
argument equal to that bound plus one, so every definition evaluates by
kernel reduction; fuel-irrelevance lemmas recover the natural unfolding
equations.
-/

set_option maxHeartbeats 1000000

namespace PPR

attribute [local semireducible] Rat.add Rat.mul Rat.inv Rat.sub

/-- Model of JavaScript strings: a list of characters. -/
abbrev Str := List Char

/-! ## Decimal printing (model of JavaScript `String(n)` for integers) -/

/-- Fuel-driven decimal printer for naturals (least significant digit last). -/
def decReprF : Nat → Nat → Str
  | 0, _ => []
  | fuel + 1, n =>
    if n < 10 then [Nat.digitChar n]
    else decReprF fuel (n / 10) ++ [Nat.digitChar (n % 10)]

/-- Decimal representation of a natural number, as produced by `String(n)`. -/
def decRepr (n : Nat) : Str := decReprF (n + 1) n

theorem decReprF_congr : ∀ f g n : Nat, n < f → n < g → decReprF f n = decReprF g n := by
  intro f
  induction f with
  | zero => intro g n h; omega
  | succ f ih =>
    intro g n hf hg
    match g, hg with
    | g + 1, hg =>
      show decReprF (f + 1) n = decReprF (g + 1) n
      simp only [decReprF]
      by_cases h : n < 10
      · simp [h]
      · have hdiv : n / 10 < n := Nat.div_lt_self (by omega) (by omega)
        simp only [h, if_false]
        rw [ih g (n / 10) (by omega) (by omega)]

theorem decRepr_eq (n : Nat) :
    decRepr n = if n < 10 then [Nat.digitChar n]
      else decRepr (n / 10) ++ [Nat.digitChar (n % 10)] := by
  show decReprF (n + 1) n = _
  simp only [decReprF]
  by_cases h : n < 10
  · simp [h]
  · have hdiv : n / 10 < n := Nat.div_lt_self (by omega) (by omega)
    simp only [h, if_false]
    rw [decReprF_congr n (n / 10 + 1) (n / 10) (by omega) (by omega)]
    rfl

theorem decRepr_ne_nil (n : Nat) : decRepr n ≠ [] := by
  rw [decRepr_eq]
  split <;> simp

theorem digitChar_inj_lt : ∀ a < 10, ∀ b < 10,
    Nat.digitChar a = Nat.digitChar b → a = b := by decide

theorem decRepr_inj : ∀ m n : Nat, decRepr m = decRepr n → m = n := by
  intro m
  induction m using Nat.strong_induction_on with
  | _ m ih =>
    intro n h
    rw [decRepr_eq m, decRepr_eq n] at h
    by_cases hm : m < 10 <;> by_cases hn : n < 10
    · simp only [hm, hn, if_true] at h
      exact digitChar_inj_lt m hm n hn (List.cons.injEq .. ▸ h).1
    · simp only [hm, hn, if_true, if_false] at h
      cases hh : decRepr (n / 10) with
      | nil => exact absurd hh (decRepr_ne_nil _)
      | cons a l =>
        rw [hh] at h
        have hlen := congrArg List.length h
        simp [List.length_append] at hlen
    · simp only [hm, hn, if_true, if_false] at h
      cases hh : decRepr (m / 10) with
      | nil => exact absurd hh (decRepr_ne_nil _)
      | cons a l =>
        rw [hh] at h
        have hlen := congrArg List.length h
        simp [List.length_append] at hlen
    · simp only [hm, hn, if_false] at h
      have hlen : [Nat.digitChar (m % 10)].length = [Nat.digitChar (n % 10)].length := rfl
      obtain ⟨h1, h2⟩ := List.append_inj' h hlen
      have e1 : m / 10 = n / 10 :=
        ih (m / 10) (Nat.div_lt_self (by omega) (by omega)) (n / 10) h1
      have e2 : m % 10 = n % 10 := by
        apply digitChar_inj_lt _ (Nat.mod_lt _ (by omega)) _ (Nat.mod_lt _ (by omega))
        exact (List.cons.injEq .. ▸ h2).1
      omega

/-- Digit characters. -/
def digitChars : Str := ['0', '1', '2', '3', '4', '5', '6', '7', '8', '9']

theorem digitChar_mem_digitChars : ∀ d : Nat, d < 10 → Nat.digitChar d ∈ digitChars := by
  decide

theorem decReprF_subset_digits :
    ∀ f n c, c ∈ decReprF f n → c ∈ digitChars := by
  intro f
  induction f with
  | zero => intro n c h; simp [decReprF] at h
  | succ f ih =>
    intro n c h
    simp only [decReprF] at h
    split at h
    · simp at h
      exact h ▸ digitChar_mem_digitChars n (by omega)
    · rw [List.mem_append] at h
      rcases h with h | h
      · exact ih _ _ h
      · simp at h
        exact h ▸ digitChar_mem_digitChars _ (Nat.mod_lt _ (by omega))

theorem decRepr_subset_digits (n : Nat) (c : Char) (h : c ∈ decRepr n) : c ∈ digitChars :=
  decReprF_subset_digits _ _ _ h

/-- Model of `String(i)` for a JavaScript integer-valued number. -/
def intRepr (i : Int) : Str :=
  if i < 0 then '-' :: decRepr i.natAbs else decRepr i.natAbs

/-- Model of `String(q)` for a general JavaScript number.  For integral
values this is exact decimal printing; the printing of non-integral
doubles is abstracted (the claims under verification never depend on it). -/
def qRepr (q : ℚ) : Str :=
  if q.den = 1 then intRepr q.num else intRepr q.num ++ '/' :: decRepr q.den

/-- Model of `String.prototype.padStart(target, c)`. -/
def padStart (target : Nat) (c : Char) (s : Str) : Str :=
  List.replicate (target - s.length) c ++ s

/-- Model of `parseInt(ds, 10)` on a nonempty digit string. -/
def parseNatDigits (ds : Str) : Nat :=
  ds.foldl (fun acc c => 10 * acc + (c.toNat - 48)) 0

/-! ## Literal global replacement: model of `s.replace(/pat/g, rep)` -/

/-- Fuel-driven left-to-right non-overlapping replace-all scanner. -/
def replaceAllF (pat rep : Str) : Nat → Str → Str
  | 0, s => s
  | _ + 1, [] => []
  | fuel + 1, c :: rest =>
    if pat <+: (c :: rest) ∧ pat ≠ [] then
      rep ++ replaceAllF pat rep fuel (rest.drop (pat.length - 1))
    else
      c :: replaceAllF pat rep fuel rest

/-- Model of `s.replace(/pat/g, rep)` for a literal pattern `pat`. -/
def replaceAll (pat rep s : Str) : Str := replaceAllF pat rep (s.length + 1) s

theorem replaceAllF_congr (pat rep : Str) :
    ∀ f g s, s.length < f → s.length < g → replaceAllF pat rep f s = replaceAllF pat rep g s := by
  intro f
  induction f with
  | zero => intro g s h; simp at h
  | succ f ih =>
    intro g s hf hg
    match g, hg with
    | g + 1, hg =>
      match s with
      | [] => rfl
      | c :: rest =>
        have hlen : (rest.drop (pat.length - 1)).length ≤ rest.length := by
          simp [List.length_drop]
        simp only [List.length_cons] at hf hg
        simp only [replaceAllF]
        split
        · rw [ih g (rest.drop (pat.length - 1)) (by omega) (by omega)]
        · rw [ih g rest (by omega) (by omega)]

theorem replaceAll_nil (pat rep : Str) : replaceAll pat rep [] = [] := rfl

theorem replaceAll_cons (pat rep : Str) (c : Char) (rest : Str) :
    replaceAll pat rep (c :: rest) =
      if pat <+: (c :: rest) ∧ pat ≠ [] then
        rep ++ replaceAll pat rep (rest.drop (pat.length - 1))
      else
        c :: replaceAll pat rep rest := by
  show replaceAllF pat rep (rest.length + 1 + 1) (c :: rest) = _
  simp only [replaceAllF]
  split
  · congr 1
    exact replaceAllF_congr pat rep (rest.length + 1) ((rest.drop (pat.length - 1)).length + 1)
      (rest.drop (pat.length - 1)) (by simp [List.length_drop]; omega) (by omega)
  · rfl

/-! ## Substring test: model of `s.includes(pat)` -/

/-- Model of `s.includes(pat)`. -/
def strContains : Str → Str → Bool
  | [], pat => pat.isEmpty
  | s@(_ :: rest), pat => pat.isPrefixOf s || strContains rest pat

theorem strContains_iff (s pat : Str) : strContains s pat = true ↔ pat <:+: s := by
  induction s with
  | nil =>
    simp [strContains, List.isEmpty_iff, List.infix_nil]
  | cons c rest ih =>
    simp only [strContains, Bool.or_eq_true, List.isPrefixOf_iff_prefix, ih]
    constructor
    · rintro (h | h)
      · exact h.isInfix
      · exact h.trans ((List.suffix_cons c rest).isInfix)
    · intro h
      rcases List.infix_cons_iff.mp h with h | h
      · exact Or.inl h
      · exact Or.inr h

theorem infix_cons_self_of_infix {pat rest : Str} (c : Char) (h : pat <:+: rest) :
    pat <:+: c :: rest :=
  h.trans ((List.suffix_cons c rest).isInfix)

example : strContains ("abcdef").data ("cde").data = true := by decide
example : strContains ("abcdef").data ("cf").data = false := by decide

/-! ## Run collapsing: model of `s.replace(/p+/g, rep)` for a character class -/

/-- Stateful scanner collapsing each maximal run of characters satisfying
`p` to the single character `rep`; the boolean records whether the
previous character belonged to a run. -/
def collapseAux (p : Char → Bool) (rep : Char) : Bool → Str → Str
  | _, [] => []
  | prev, c :: cs =>
    if p c then
      if prev then collapseAux p rep true cs
      else rep :: collapseAux p rep true cs
    else c :: collapseAux p rep false cs

/-- Model of `s.replace(/p+/g, rep)`: collapse runs of `p`-characters. -/
def collapse (p : Char → Bool) (rep : Char) (s : Str) : Str := collapseAux p rep false s

theorem collapseAux_mem (p : Char → Bool) (rep : Char) :
    ∀ (s : Str) (b : Bool) (c : Char), c ∈ collapseAux p rep b s →
      c = rep ∨ (c ∈ s ∧ p c = false) := by
  intro s
  induction s with
  | nil => intro b c h; simp [collapseAux] at h
  | cons a cs ih =>
    intro b c h
    simp only [collapseAux] at h
    by_cases hp : p a
    · simp only [hp, if_true] at h
      cases b with
      | true =>
        rcases ih true c h with h | ⟨h1, h2⟩
        · exact Or.inl h
        · exact Or.inr ⟨List.mem_cons_of_mem _ h1, h2⟩
      | false =>
        simp only [Bool.false_eq_true, if_false] at h
        rcases List.mem_cons.mp h with h | h
        · exact Or.inl h
        · rcases ih true c h with h | ⟨h1, h2⟩
          · exact Or.inl h
          · exact Or.inr ⟨List.mem_cons_of_mem _ h1, h2⟩
    · simp only [hp, if_false] at h
      rcases List.mem_cons.mp h with h | h
      · subst h
        exact Or.inr ⟨List.mem_cons_self _ _, by simpa using hp⟩
      · rcases ih false c h with h | ⟨h1, h2⟩
        · exact Or.inl h
        · exact Or.inr ⟨List.mem_cons_of_mem _ h1, h2⟩

theorem collapseAux_of_no_p (p : Char → Bool) (rep : Char) :
    ∀ (s : Str) (b : Bool), (∀ c ∈ s, p c = false) → collapseAux p rep b s = s := by
  intro s
  induction s with
  | nil => intro b _; rfl
  | cons a cs ih =>
    intro b h
    have ha : p a = false := h a (List.mem_cons_self _ _)
    simp only [collapseAux, ha, if_false, Bool.false_eq_true]
    rw [ih false (fun c hc => h c (List.mem_cons_of_mem _ hc))]

/-- No two adjacent characters of `s` both satisfy `p`. -/
def NoAdj (p : Char → Bool) (s : Str) : Prop :=
  List.Chain' (fun a b => ¬(p a = true ∧ p b = true)) s

theorem collapseAux_id_of_noAdj (p : Char → Bool) (rep : Char)
    (hrep : ∀ c, p c = true → c = rep) :
    ∀ (s : Str) (b : Bool), NoAdj p s →
      (b = true → s = [] ∨ p s.head! = false) → collapseAux p rep b s = s := by
  intro s
  induction s with
  | nil => intro b _ _; rfl
  | cons a cs ih =>
    intro b hadj hb
    by_cases hp : p a
    · have hb' : b = false := by
        cases b with
        | false => rfl
        | true =>
          rcases hb rfl with h | h
          · simp at h
          · simp [List.head!] at h
            rw [hp] at h
            simp at h
      subst hb'
      simp only [collapseAux, hp, if_true, if_false, Bool.false_eq_true]
      rw [hrep a hp]
      congr 1
      apply ih true
      · exact (List.chain'_cons'.mp hadj).2
      · intro _
        cases cs with
        | nil => exact Or.inl rfl
        | cons a2 cs2 =>
          right
          have := (List.chain'_cons'.mp hadj).1 a2 rfl
          simp only [List.head!]
          by_cases h2 : p a2
          · exact absurd ⟨hp, h2⟩ this
          · simpa using h2
    · simp only [collapseAux, hp, if_false, Bool.false_eq_true]
      congr 1
      apply ih false
      · exact (List.chain'_cons'.mp hadj).2
      · intro h; cases h

theorem collapseAux_noAdj (p : Char → Bool) (rep : Char) :
    ∀ (s : Str) (b : Bool),
      NoAdj p (collapseAux p rep b s) ∧
      (b = true → collapseAux p rep b s = [] ∨ p (collapseAux p rep b s).head! = false) := by
  intro s
  induction s with
  | nil => intro b; exact ⟨List.chain'_nil, fun _ => Or.inl rfl⟩
  | cons a cs ih =>
    intro b
    by_cases hp : p a
    · cases b with
      | true =>
        simp only [collapseAux, hp, if_true]
        exact ⟨(ih true).1, fun _ => (ih true).2 rfl⟩
      | false =>
        simp only [collapseAux, hp, if_true, if_false, Bool.false_eq_true]
        constructor
        · refine List.chain'_cons'.mpr ⟨?_, (ih true).1⟩
          intro y hy
          rcases (ih true).2 rfl with h | h
          · rw [h] at hy; cases hy
          · cases hxs : collapseAux p rep true cs with
            | nil => rw [hxs] at hy; cases hy
            | cons z zs =>
              rw [hxs] at hy h
              simp only [List.head?] at hy
              simp only [List.head!] at h
              cases hy
              intro hc
              rw [hc.2] at h
              simp at h
        · intro h; cases h
    · simp only [collapseAux, hp, if_false, Bool.false_eq_true]
      constructor
      · refine List.chain'_cons'.mpr ⟨?_, (ih false).1⟩
        intro y _ hc
        rw [hc.1] at hp
        simp at hp
      · intro _
        right
        simp only [List.head!]
        simpa using hp

/-! ## Character classes used by the sanitizers -/

/-- JavaScript `\s` (the whitespace characters relevant here). -/
def isJsWs (c : Char) : Bool :=
  c = ' ' || c = '\t' || c = '\n' || c = '\r' || c = '\x0b' || c = '\x0c' || c = ' '

/-- JavaScript `\w`: ASCII letters, digits and underscore. -/
def isWordChar (c : Char) : Bool := c.isAlphanum || c = '_'

/-- Characters stripped by the final filename sanitizer. -/
def illegalChars : Str := ['<', '>', ':', '"', '/', '\\', '|', '?', '*']

/-- Membership in `illegalChars`. -/
def isIllegal (c : Char) : Bool := illegalChars.contains c

/-- Underscore test (the run class of the final collapsing step). -/
def isUnd (c : Char) : Bool := c == '_'

/-- Model of `String.prototype.trim()`. -/
def jsTrim (s : Str) : Str :=
  ((s.dropWhile isJsWs).reverse.dropWhile isJsWs).reverse

/-- Model of `sanitizeToken` (rename.ts:369): keep word characters,
whitespace and hyphens, collapse whitespace runs to an underscore, trim. -/
def sanitizeToken (value : Str) : Str :=
  jsTrim (collapse isJsWs '_' (value.filter (fun c => isWordChar c || isJsWs c || c = '-')))

/-- Model of `sanitizeForFilename` (rename.ts:376): strip characters
illegal in filenames, collapse whitespace runs to an underscore, collapse
underscore runs. -/
def sanitizeForFilename (value : Str) : Str :=
  collapse isUnd '_' (collapse isJsWs '_' (value.filter (fun c => !isIllegal c)))

example : sanitizeForFilename ("a  b??c__d").data = ("a_bc_d").data := by decide

/-! ## Filename splitting: model of `parseFilename` (rename.ts:437) -/

/-- Result of splitting a filename at its last dot. -/
structure PFile where
  name : Str
  ext : Str
deriving DecidableEq, Repr

def lastDotAux : Str → Nat → Option Nat → Option Nat
  | [], _, acc => acc
  | c :: rest, i, acc => lastDotAux rest (i + 1) (if c = '.' then some i else acc)

/-- Model of `filename.lastIndexOf('.')` (as an `Option`). -/
def lastIndexOfDot (s : Str) : Option Nat := lastDotAux s 0 none

/-- Model of `parseFilename`: split at the last dot; a missing dot or a
dot at position 0 yields an empty extension. -/
def parseFilename (filename : Str) : PFile :=
  match lastIndexOfDot filename with
  | none => ⟨filename, []⟩
  | some 0 => ⟨filename, []⟩
  | some i => ⟨filename.take i, filename.drop (i + 1)⟩

example : parseFilename ("shot.jpg").data = ⟨("shot").data, ("jpg").data⟩ := by decide
example : parseFilename ("archive.tar.gz").data = ⟨("archive.tar").data, ("gz").data⟩ := by decide
example : parseFilename ("noext").data = ⟨("noext").data, []⟩ := by decide
example : parseFilename (".hidden").data = ⟨(".hidden").data, []⟩ := by decide

/-! ## Brace-delimited tokens and their combinatorics -/

/-- The template string of a token with inner name `n`. -/
def tokenStr (n : Str) : Str := '{' :: n ++ ['}']

/-- A well-formed inner token name: nonempty and brace-free. -/
def TokName (n : Str) : Prop := n ≠ [] ∧ ∀ c ∈ n, c ≠ '{' ∧ c ≠ '}'

instance (n : Str) : Decidable (TokName n) := by unfold TokName; infer_instance

/-- Brace-free strings (safe replacement values). -/
def BraceFree (s : Str) : Prop := ∀ c ∈ s, c ≠ '{' ∧ c ≠ '}'

instance (s : Str) : Decidable (BraceFree s) := by unfold BraceFree; infer_instance

theorem tokenStr_ne_nil (n : Str) : tokenStr n ≠ [] := by simp [tokenStr]

/-- Between two brace-free names, a token string can be a prefix of a
token string followed by anything only when the names agree. -/
theorem prefix_token_names_eq :
    ∀ n m u : Str, (∀ c ∈ n, c ≠ '}') → (∀ c ∈ m, c ≠ '}') →
      (n ++ ['}']) <+: (m ++ '}' :: u) → n = m := by
  intro n
  induction n with
  | nil =>
    intro m u _ hm h
    cases m with
    | nil => rfl
    | cons b m2 =>
      simp only [List.nil_append, List.cons_append] at h
      rcases List.cons_prefix_cons.mp h with ⟨hb, _⟩
      exact absurd hb.symm (hm b (List.mem_cons_self _ _))
  | cons a n2 ih =>
    intro m u hn hm h
    cases m with
    | nil =>
      simp only [List.cons_append, List.nil_append] at h
      rcases List.cons_prefix_cons.mp h with ⟨hb, _⟩
      exact absurd hb (hn a (List.mem_cons_self _ _))
    | cons b m2 =>
      simp only [List.cons_append] at h
      rcases List.cons_prefix_cons.mp h with ⟨hb, h2⟩
      subst hb
      rw [ih m2 u (fun c hc => hn c (List.mem_cons_of_mem _ hc))
        (fun c hc => hm c (List.mem_cons_of_mem _ hc)) h2]

/-- A token string that is a prefix of another token string followed by
anything forces the names to agree. -/
theorem tokenStr_prefix_force {n m : Str} (u : Str) (hn : TokName n) (hm : TokName m)
    (h : tokenStr n <+: tokenStr m ++ u) : n = m := by
  have h2 : tokenStr m ++ u = '{' :: (m ++ '}' :: u) := by simp [tokenStr]
  rw [h2] at h
  rcases List.cons_prefix_cons.mp h with ⟨_, h3⟩
  exact prefix_token_names_eq n m u (fun c hc => (hn.2 c hc).2) (fun c hc => (hm.2 c hc).2) h3

/-- An occurrence of a pattern starting with `{` inside `l ++ u` where `l`
contains no `{` must lie entirely inside `u`. -/
theorem occurrence_after_nonbrace (p2 : Str) :
    ∀ l u x y : Str, (∀ c ∈ l, c ≠ '{') →
      x ++ ('{' :: p2) ++ y = l ++ u →
      ∃ x2, x = l ++ x2 ∧ x2 ++ ('{' :: p2) ++ y = u := by
  intro l
  induction l with
  | nil =>
    intro u x y _ h
    exact ⟨x, by simp, by simpa using h⟩
  | cons c l2 ih =>
    intro u x y hl h
    cases x with
    | nil =>
      simp only [List.nil_append, List.cons_append] at h
      have := (List.cons.injEq .. ▸ h).1
      exact absurd this.symm (hl c (List.mem_cons_self _ _))
    | cons d x2 =>
      simp only [List.cons_append] at h
      have hd := (List.cons.injEq .. ▸ h).1
      have ht := (List.cons.injEq .. ▸ h).2
      subst hd
      rcases ih u x2 y (fun c2 hc => hl c2 (List.mem_cons_of_mem _ hc)) ht with ⟨x3, hx3, hu⟩
      exact ⟨x3, by rw [hx3, List.cons_append], hu⟩

/-- Replacing a `{`-headed pattern commutes with a brace-free left part. -/
theorem replaceAll_append_left (p2 rep : Str) :
    ∀ l u : Str, (∀ c ∈ l, c ≠ '{') →
      replaceAll ('{' :: p2) rep (l ++ u) = l ++ replaceAll ('{' :: p2) rep u := by
  intro l
  induction l with
  | nil => intro u _; simp
  | cons c l2 ih =>
    intro u hl
    rw [List.cons_append, replaceAll_cons]
    have hc : ¬(('{' :: p2) <+: (c :: (l2 ++ u)) ∧ ('{' :: p2) ≠ []) := by
      rintro ⟨hpre, -⟩
      rcases List.cons_prefix_cons.mp hpre with ⟨hb, -⟩
      exact absurd hb.symm (hl c (List.mem_cons_self _ _))
    rw [if_neg hc, ih u (fun c2 hc2 => hl c2 (List.mem_cons_of_mem _ hc2))]
    rfl

/-- Survival of a token occurrence under global replacement of a distinct
token by a brace-free value.  This is the key fact making the per-token
warning behaviour of `generateFilename` compositional: replacing one
token never destroys occurrences of another. -/
theorem survival (pn gn rep : Str) (hpn : TokName pn) (hgn : TokName gn) (hne : gn ≠ pn) :
    ∀ N s, s.length ≤ N → tokenStr gn <:+: s →
      tokenStr gn <:+: replaceAll (tokenStr pn) rep s := by
  intro N
  induction N with
  | zero =>
    intro s hs h
    have : s = [] := List.eq_nil_of_length_eq_zero (by omega)
    subst this
    rw [List.infix_nil] at h
    exact absurd h (tokenStr_ne_nil gn)
  | succ N ih =>
    intro s hs h
    cases s with
    | nil =>
      rw [List.infix_nil] at h
      exact absurd h (tokenStr_ne_nil gn)
    | cons c rest =>
      rw [replaceAll_cons]
      by_cases hcond : (tokenStr pn <+: (c :: rest) ∧ tokenStr pn ≠ [])
      · rw [if_pos hcond]
        rcases hcond.1 with ⟨s2, hs2⟩
        rcases h with ⟨x, y, hxy⟩
        have hdrop : rest.drop (List.length (tokenStr pn) - 1) = s2 := by
          have h0 : (tokenStr pn ++ s2).drop (List.length (tokenStr pn)) = s2 :=
            List.drop_left _ _
          rw [hs2] at h0
          rw [show List.length (tokenStr pn) = (List.length (tokenStr pn) - 1) + 1 by
            simp [tokenStr]] at h0
          simpa using h0
        cases x with
        | nil =>
          exfalso
          apply hne
          apply tokenStr_prefix_force (u := s2) hgn hpn
          simp only [List.nil_append] at hxy
          exact ⟨y, hxy.trans hs2.symm⟩
        | cons d x2 =>
          rw [← hs2] at hxy
          have h1 : tokenStr pn = '{' :: (pn ++ ['}']) := by simp [tokenStr]
          rw [h1] at hxy
          simp only [List.cons_append] at hxy
          have hd := (List.cons.injEq .. ▸ hxy).1
          have ht := (List.cons.injEq .. ▸ hxy).2
          have hgshape : tokenStr gn = '{' :: (gn ++ ['}']) := by simp [tokenStr]
          rw [hgshape] at ht
          have hnb : ∀ c2 ∈ pn ++ ['}'], c2 ≠ '{' := by
            intro c2 hc2
            rcases List.mem_append.mp hc2 with hc2 | hc2
            · exact (hpn.2 c2 hc2).1
            · simp at hc2; subst hc2; decide
          have ht2 : x2 ++ ('{' :: (gn ++ ['}'])) ++ y = (pn ++ ['}']) ++ s2 := ht
          rcases occurrence_after_nonbrace (gn ++ ['}']) (pn ++ ['}']) s2 x2 y hnb ht2 with
            ⟨x3, _, hu⟩
          have hinf : tokenStr gn <:+: s2 := ⟨x3, y, by rw [hgshape]; exact hu⟩
          have hlen2 : s2.length ≤ N := by
            have hl2 := congrArg List.length hs2
            simp only [tokenStr, List.length_append, List.length_cons] at hl2 hs
            omega
          rw [hdrop]
          exact (ih s2 hlen2 hinf).trans ((List.suffix_append rep _).isInfix)
      · rw [if_neg hcond]
        rcases h with ⟨x, y, hxy⟩
        cases x with
        | nil =>
          simp only [List.nil_append] at hxy
          have hgshape : tokenStr gn = '{' :: (gn ++ ['}']) := by simp [tokenStr]
          rw [hgshape, List.cons_append] at hxy
          have hd := (List.cons.injEq .. ▸ hxy).1
          have ht := (List.cons.injEq .. ▸ hxy).2
          subst hd
          have hrest : rest = (gn ++ ['}']) ++ y := ht.symm
          have hnb : ∀ c2 ∈ gn ++ ['}'], c2 ≠ '{' := by
            intro c2 hc2
            rcases List.mem_append.mp hc2 with hc2 | hc2
            · exact (hgn.2 c2 hc2).1
            · simp at hc2; subst hc2; decide
          have : replaceAll (tokenStr pn) rep rest =
              (gn ++ ['}']) ++ replaceAll (tokenStr pn) rep y := by
            rw [hrest]
            have hshape : tokenStr pn = '{' :: (pn ++ ['}']) := by simp [tokenStr]
            rw [hshape]
            exact replaceAll_append_left (pn ++ ['}']) rep (gn ++ ['}']) y hnb
          refine ⟨[], replaceAll (tokenStr pn) rep y, ?_⟩
          rw [this, hgshape]
          simp
        | cons d x2 =>
          simp only [List.cons_append] at hxy
          have hd := (List.cons.injEq .. ▸ hxy).1
          have ht := (List.cons.injEq .. ▸ hxy).2
          have hinf : tokenStr gn <:+: rest := ⟨x2, y, ht⟩
          have hlen2 : rest.length ≤ N := by simp [List.length_cons] at hs; omega
          exact infix_cons_self_of_infix c (ih rest hlen2 hinf)

/-! ## Token and warning-message constants (rename.ts) -/

/-- Token string built from a Lean string literal name. -/
def tk (s : String) : Str := tokenStr s.data

def tkYYYY : Str := tk ("YYYY")
def tkYY : Str := tk ("YY")
def tkMM : Str := tk ("MM")
def tkDD : Str := tk ("DD")
def tkHH : Str := tk ("HH")
def tkmmTok : Str := tk ("mm")
def tkssTok : Str := tk ("ss")
def tkDate : Str := tk ("date")
def tkDatetime : Str := tk ("datetime")
def tkTimestamp : Str := tk ("timestamp")
def tkMake : Str := tk ("make")
def tkModel : Str := tk ("model")
def tkLens : Str := tk ("lens")
def tkIso : Str := tk ("iso")
def tkAperture : Str := tk ("aperture")
def tkShutter : Str := tk ("shutter")
def tkFocal : Str := tk ("focal")
def tkWidth : Str := tk ("width")
def tkHeight : Str := tk ("height")
def tkDims : Str := tk ("dimensions")
def tkOrientation : Str := tk ("orientation")
def tkLat : Str := tk ("lat")
def tkLng : Str := tk ("lng")
def tkGps : Str := tk ("gps")
def tkCounter : Str := tk ("counter")
def tkOriginal : Str := tk ("original")
def tkExt : Str := tk ("ext")
def tkCustom : Str := tk ("custom")

def msgMake : Str := ("Camera make not available in EXIF data").data
def msgModel : Str := ("Camera model not available in EXIF data").data
def msgLens : Str := ("Lens model not available in EXIF data").data
def msgIso : Str := ("ISO not available in EXIF data").data
def msgAperture : Str := ("Aperture not available in EXIF data").data
def msgShutter : Str := ("Shutter speed not available in EXIF data").data
def msgFocal : Str := ("Focal length not available in EXIF data").data
def msgWidth : Str := ("Image width not available").data
def msgHeight : Str := ("Image height not available").data
def msgDims : Str := ("Image dimensions not available").data
def msgLat : Str := ("GPS latitude not available").data
def msgLng : Str := ("GPS longitude not available").data
def msgGps : Str := ("GPS coordinates not available").data
def conflictMsg : Str := ("Filename conflict resolved with numeric suffix").data
def unresolvedHead : Str := ("Unresolved tokens: ").data

/-! ## Data model (types/exif.d.ts, types/template.d.ts) -/

/-- Model of a JavaScript `Date`: the calendar accessors used by
`replaceDateTokens` plus the epoch value used by `{timestamp}`.  `month0`
is `getMonth()` (0-based, as in JavaScript). -/
structure JsDate where
  year : Int
  month0 : Nat
  day : Nat
  hour : Nat
  minute : Nat
  second : Nat
  epochMillis : Int
deriving DecidableEq, Repr

/-- Model of `GPSData`. -/
structure GPSData where
  lat : ℚ
  lng : ℚ
  altitude : Option ℚ
deriving DecidableEq, Repr

/-- Model of `ExifData` (the fields consumed by the rename engine). -/
structure ExifData where
  make : Option Str
  model : Option Str
  lensModel : Option Str
  dateTaken : Option JsDate
  exposureTime : Option (ℚ ⊕ Str)
  fNumber : Option ℚ
  iso : Option ℚ
  focalLength : Option ℚ
  width : Option ℚ
  height : Option ℚ
  orientation : ℚ
  gps : Option GPSData
deriving DecidableEq, Repr

/-- Model of `RenameOptions` (the fields consumed by the rename engine).
Absent fields are `none`; `batchRename`'s `startCounter` included. -/
structure RenameOptions where
  counter : Option Int := none
  counterPadding : Option Nat := none
  startCounter : Option Int := none
  customText : Option Str := none
  fallbackDate : Option JsDate := none
  preserveExtension : Option Bool := none
deriving DecidableEq, Repr

/-- Model of `RenameResult`. -/
structure RenameResult where
  filename : Str
  success : Bool
  warnings : Option (List Str)
deriving DecidableEq, Repr

/-! ## Numeric formatting helpers (rename.ts) -/

/-- Model of `Math.round` (round half towards positive infinity):
the floor of `q + 1/2`, computed on the rational's parts so that it
evaluates by kernel reduction. -/
def jsRound (q : ℚ) : Int :=
  Int.fdiv (q + 1 / 2).num ((q + 1 / 2).den : Int)

/-- Best-effort model of `parseFloat` on simple decimal literals; the
claims under verification never depend on its exact behaviour on exotic
inputs. -/
def parseFloatQ (s : Str) : Option ℚ :=
  let ds := s.takeWhile Char.isDigit
  if ds.isEmpty then none
  else
    match s.drop ds.length with
    | '.' :: fs =>
      let fd := fs.takeWhile Char.isDigit
      some ((parseNatDigits ds : ℚ) + (parseNatDigits fd : ℚ) / ((10 : ℚ) ^ fd.length))
    | _ => some ((parseNatDigits ds : ℚ))

/-- Model of `formatShutterSpeed` (rename.ts:354) on a numeric argument
(the string-coercion of the source is performed at the call site, as in
`replaceCameraTokens`; an exact rational is never `NaN`). -/
def formatShutterSpeed (speed : ℚ) : Str :=
  if speed = 0 then []
  else if speed ≤ 0 then []
  else if 1 ≤ speed then qRepr speed ++ ['s']
  else '1' :: '/' :: intRepr (jsRound (1 / speed)) ++ ['s']

/-- Approximation of `Number.prototype.toFixed(6)` used by the GPS
tokens: sign, integer part, dot, six fractional digits. -/
def toFixed6 (q : ℚ) : Str :=
  let n : Int := jsRound (q * 1000000)
  let a := n.natAbs
  (if n < 0 then ['-'] else []) ++ decRepr (a / 1000000) ++ '.' ::
    padStart 6 '0' (decRepr (a % 1000000))

/-! ## Date tokens (rename.ts:145, `replaceDateTokens`) -/

/-- The `YYYYMMDD` composite used by `{date}` and `{datetime}`. -/
def dateYMD (d : JsDate) : Str :=
  intRepr d.year ++ padStart 2 '0' (decRepr (d.month0 + 1)) ++ padStart 2 '0' (decRepr d.day)

/-- The `HHMMSS` composite used by `{datetime}`. -/
def timeHMS (d : JsDate) : Str :=
  padStart 2 '0' (decRepr d.hour) ++ padStart 2 '0' (decRepr d.minute) ++
    padStart 2 '0' (decRepr d.second)

/-- The ten date-token replacements, in source order. -/
def dateReplacements (d : JsDate) : List (Str × Str) :=
  [(tkYYYY, intRepr d.year),
   (tkYY, (intRepr d.year).drop ((intRepr d.year).length - 2)),
   (tkMM, padStart 2 '0' (decRepr (d.month0 + 1))),
   (tkDD, padStart 2 '0' (decRepr d.day)),
   (tkHH, padStart 2 '0' (decRepr d.hour)),
   (tkmmTok, padStart 2 '0' (decRepr d.minute)),
   (tkssTok, padStart 2 '0' (decRepr d.second)),
   (tkDate, dateYMD d),
   (tkDatetime, dateYMD d ++ '_' :: timeHMS d),
   (tkTimestamp, intRepr (Int.fdiv d.epochMillis 1000))]

/-- Model of `replaceDateTokens`: the chained `.replace` calls, in order. -/
def replaceDateTokens (t : Str) (d : JsDate) : Str :=
  (dateReplacements d).foldl (fun s pr => replaceAll pr.1 pr.2 s) t

/-- The inner names of the ten date tokens, in source order. -/
def dateTokenNames : List Str :=
  [("YYYY").data, ("YY").data, ("MM").data, ("DD").data, ("HH").data,
   ("mm").data, ("ss").data, ("date").data, ("datetime").data, ("timestamp").data]

/-! ## Metadata token blocks (rename.ts:166-334) -/

/-- One conditional replacement block of the form found throughout
`replaceCameraTokens` / `replaceImageTokens` / `replaceGPSTokens`: if the
token occurs, either substitute the computed value, or substitute the
empty string and push the given warning. -/
def tokBlock (tok : Str) (v : Option Str) (msg : Str) (p : Str × List Str) : Str × List Str :=
  if strContains p.1 tok then
    match v with
    | some rep => (replaceAll tok rep p.1, p.2)
    | none => (replaceAll tok [] p.1, p.2 ++ [msg])
  else p

/-- Run a list of token blocks left to right. -/
def runBlocks (specs : List (Str × Option Str × Str)) (p : Str × List Str) : Str × List Str :=
  specs.foldl (fun q spec => tokBlock spec.1 spec.2.1 spec.2.2 q) p

/-- Truthiness-guarded replacement value of the `{make}` block. -/
def repMake (ex : Option ExifData) : Option Str :=
  match ex with
  | none => none
  | some e =>
    match e.make with
    | none => none
    | some s => if s.isEmpty then none else some (sanitizeToken s)

/-- Truthiness-guarded replacement value of the `{model}` block. -/
def repModel (ex : Option ExifData) : Option Str :=
  match ex with
  | none => none
  | some e =>
    match e.model with
    | none => none
    | some s => if s.isEmpty then none else some (sanitizeToken s)

/-- Truthiness-guarded replacement value of the `{lens}` block. -/
def repLens (ex : Option ExifData) : Option Str :=
  match ex with
  | none => none
  | some e =>
    match e.lensModel with
    | none => none
    | some s => if s.isEmpty then none else some (sanitizeToken s)

/-- Truthiness-guarded replacement value of the `{iso}` block. -/
def repIso (ex : Option ExifData) : Option Str :=
  match ex with
  | none => none
  | some e =>
    match e.iso with
    | none => none
    | some q => if q = 0 then none else some (("ISO").data ++ qRepr q)

/-- Truthiness-guarded replacement value of the `{aperture}` block. -/
def repAperture (ex : Option ExifData) : Option Str :=
  match ex with
  | none => none
  | some e =>
    match e.fNumber with
    | none => none
    | some q => if q = 0 then none else some ('f' :: qRepr q)

/-- Truthiness-guarded replacement value of the `{shutter}` block,
including the source's number/string coercion of `exposureTime`. -/
def repShutter (ex : Option ExifData) : Option Str :=
  match ex with
  | none => none
  | some e =>
    match e.exposureTime with
    | none => none
    | some (.inl q) => if q = 0 then none else some (formatShutterSpeed q)
    | some (.inr s) =>
      if s.isEmpty then none else some (formatShutterSpeed ((parseFloatQ s).getD 0))

/-- Truthiness-guarded replacement value of the `{focal}` block. -/
def repFocal (ex : Option ExifData) : Option Str :=
  match ex with
  | none => none
  | some e =>
    match e.focalLength with
    | none => none
    | some q => if q = 0 then none else some (qRepr q ++ ("mm").data)

/-- The seven camera/settings blocks, in source order. -/
def camSpecs (ex : Option ExifData) : List (Str × Option Str × Str) :=
  [(tkMake, repMake ex, msgMake),
   (tkModel, repModel ex, msgModel),
   (tkLens, repLens ex, msgLens),
   (tkIso, repIso ex, msgIso),
   (tkAperture, repAperture ex, msgAperture),
   (tkShutter, repShutter ex, msgShutter),
   (tkFocal, repFocal ex, msgFocal)]

/-- Model of `replaceCameraTokens` (rename.ts:166). -/
def replaceCameraTokens (t : Str) (ex : Option ExifData) (w : List Str) : Str × List Str :=
  runBlocks (camSpecs ex) (t, w)

/-- The inner names of the seven camera tokens, in source order. -/
def camNames : List Str :=
  [("make").data, ("model").data, ("lens").data, ("iso").data,
   ("aperture").data, ("shutter").data, ("focal").data]

/-- The seven camera warning messages, in source order. -/
def camMsgs : List Str :=
  [msgMake, msgModel, msgLens, msgIso, msgAperture, msgShutter, msgFocal]

/-- Whether the EXIF field backing the `i`-th camera block is absent
(`undefined`/`null`) in a present EXIF record. -/
def camFieldMissing (e : ExifData) : Nat → Bool
  | 0 => e.make.isNone
  | 1 => e.model.isNone
  | 2 => e.lensModel.isNone
  | 3 => e.iso.isNone
  | 4 => e.fNumber.isNone
  | 5 => e.exposureTime.isNone
  | _ => e.focalLength.isNone

/-- Truthiness-guarded replacement value of the `{width}` block. -/
def repWidth (ex : Option ExifData) : Option Str :=
  match ex with
  | none => none
  | some e =>
    match e.width with
    | none => none
    | some q => if q = 0 then none else some (qRepr q)

/-- Truthiness-guarded replacement value of the `{height}` block. -/
def repHeight (ex : Option ExifData) : Option Str :=
  match ex with
  | none => none
  | some e =>
    match e.height with
    | none => none
    | some q => if q = 0 then none else some (qRepr q)

/-- Truthiness-guarded replacement value of the `{dimensions}` block
(requires both `width` and `height` truthy). -/
def repDims (ex : Option ExifData) : Option Str :=
  match ex with
  | none => none
  | some e =>
    match e.width, e.height with
    | some a, some b =>
      if a = 0 ∨ b = 0 then none else some (qRepr a ++ 'x' :: qRepr b)
    | _, _ => none

/-- The three warning-producing image blocks, in source order. -/
def imgSpecs (ex : Option ExifData) : List (Str × Option Str × Str) :=
  [(tkWidth, repWidth ex, msgWidth),
   (tkHeight, repHeight ex, msgHeight),
   (tkDims, repDims ex, msgDims)]

/-- Replacement value of `{orientation}`: the field when truthy, else
`"1"`, silently. -/
def orientRep (ex : Option ExifData) : Str :=
  match ex with
  | none => ("1").data
  | some e => if e.orientation = 0 then ("1").data else qRepr e.orientation

/-- The `{orientation}` block: substitutes without ever warning. -/
def orientBlock (ex : Option ExifData) (p : Str × List Str) : Str × List Str :=
  if strContains p.1 tkOrientation then (replaceAll tkOrientation (orientRep ex) p.1, p.2)
  else p

/-- Model of `replaceImageTokens` (rename.ts:251). -/
def replaceImageTokens (t : Str) (ex : Option ExifData) (w : List Str) : Str × List Str :=
  orientBlock ex (runBlocks (imgSpecs ex) (t, w))

/-- Truthiness-guarded replacement value of the `{lat}` block. -/
def repLat (ex : Option ExifData) : Option Str :=
  match ex with
  | none => none
  | some e =>
    match e.gps with
    | none => none
    | some g => if g.lat = 0 then none else some (toFixed6 g.lat)

/-- Truthiness-guarded replacement value of the `{lng}` block. -/
def repLng (ex : Option ExifData) : Option Str :=
  match ex with
  | none => none
  | some e =>
    match e.gps with
    | none => none
    | some g => if g.lng = 0 then none else some (toFixed6 g.lng)

/-- Truthiness-guarded replacement value of the `{gps}` block. -/
def repGpsPair (ex : Option ExifData) : Option Str :=
  match ex with
  | none => none
  | some e =>
    match e.gps with
    | none => none
    | some g =>
      if g.lat = 0 ∨ g.lng = 0 then none
      else some (toFixed6 g.lat ++ '_' :: toFixed6 g.lng)

/-- The three GPS blocks, in source order. -/
def gpsSpecs (ex : Option ExifData) : List (Str × Option Str × Str) :=
  [(tkLat, repLat ex, msgLat),
   (tkLng, repLng ex, msgLng),
   (tkGps, repGpsPair ex, msgGps)]

/-- Model of `replaceGPSTokens` (rename.ts:296). -/
def replaceGPSTokens (t : Str) (ex : Option ExifData) (w : List Str) : Str × List Str :=
  runBlocks (gpsSpecs ex) (t, w)

/-! ## Counter tokens (rename.ts:336) -/

/-- The literal prefix matched by the `{counter:N}` regular expression. -/
def counterPad9 : Str := '{' :: ("counter:").data

/-- Fuel-driven scanner for `\{counter:(\d+)\}` with per-match padded
replacement, mirroring the callback-style `.replace`. -/
def counterPadScanF (counterStr : Str) : Nat → Str → Str
  | 0, s => s
  | _ + 1, [] => []
  | fuel + 1, c :: rest =>
    if counterPad9 <+: (c :: rest) then
      let after := (c :: rest).drop counterPad9.length
      let ds := after.takeWhile Char.isDigit
      if ds ≠ [] ∧ (after.drop ds.length).head? = some '}' then
        padStart (parseNatDigits ds) '0' counterStr ++
          counterPadScanF counterStr fuel (after.drop (ds.length + 1))
      else c :: counterPadScanF counterStr fuel rest
    else c :: counterPadScanF counterStr fuel rest

/-- Model of `replaceCounterTokens`: custom-padded `{counter:N}` first,
then `{counter}` with the default padding. -/
def replaceCounterTokens (t : Str) (counter : Int) (defaultPadding : Nat) : Str :=
  let t1 := counterPadScanF (intRepr counter) (t.length + 1) t
  replaceAll tkCounter (padStart defaultPadding '0' (intRepr counter)) t1

/-! ## Unresolved-token stripping (rename.ts:126, `TOKEN_REGEX`) -/

/-- Fuel-driven scanner for `\{[^}]+\}`: returns the string with all
matches removed together with the list of matches, modelling the final
`match` + `replace` pair of `generateFilename`. -/
def stripScanF : Nat → Str → Str × List Str
  | 0, s => (s, [])
  | _ + 1, [] => ([], [])
  | fuel + 1, c :: rest =>
    if c = '{' then
      let inner := rest.takeWhile (fun x => x != '}')
      if inner ≠ [] ∧ rest.drop inner.length ≠ [] then
        let q := stripScanF fuel (rest.drop (inner.length + 1))
        (q.1, ('{' :: inner ++ ['}']) :: q.2)
      else
        let q := stripScanF fuel rest
        ('{' :: q.1, q.2)
    else
      let q := stripScanF fuel rest
      (c :: q.1, q.2)

/-- Strip every `\{[^}]+\}` match, reporting the matches. -/
def stripUnresolved (s : Str) : Str × List Str := stripScanF (s.length + 1) s

/-- Model of `unresolvedTokens.join(', ')`. -/
def joinCS : List Str → Str
  | [] => []
  | [m] => m
  | m :: ms => m ++ (", ").data ++ joinCS ms

/-! ## The resolver (rename.ts:91, `generateFilename`) -/

/-- Model of `exifData?.dateTaken || fallbackDate` (a present `Date`
object is always truthy). -/
def dateOf (ex : Option ExifData) (fallback : JsDate) : JsDate :=
  match ex with
  | none => fallback
  | some e => e.dateTaken.getD fallback

/-- Steps 1-2 of `generateFilename`: the date-token pass followed by the
camera-token pass (warnings start empty).  `now` stands for the
`new Date()` produced when no `fallbackDate` option is supplied. -/
def camStage (template : Str) (ex : Option ExifData) (opts : RenameOptions)
    (now : JsDate) : Str × List Str :=
  replaceCameraTokens (replaceDateTokens template (dateOf ex (opts.fallbackDate.getD now))) ex []

/-- Steps 3-4: the image-token pass on the camera pass's output. -/
def imgStage (template : Str) (ex : Option ExifData) (opts : RenameOptions)
    (now : JsDate) : Str × List Str :=
  let p2 := camStage template ex opts now
  replaceImageTokens p2.1 ex p2.2

/-- Steps 3-5: the GPS-token pass on the image pass's output. -/
def gpsStage (template : Str) (ex : Option ExifData) (opts : RenameOptions)
    (now : JsDate) : Str × List Str :=
  let p3 := imgStage template ex opts now
  replaceGPSTokens p3.1 ex p3.2

/-- Steps 1-8 of `generateFilename` before the unresolved-token strip:
all token substitution passes, with the warning list accumulated through
the GPS pass. -/
def resolvePre (template : Str) (ex : Option ExifData) (orig : Str)
    (opts : RenameOptions) (now : JsDate) : Str × List Str :=
  let pf := parseFilename orig
  let p4 := gpsStage template ex opts now
  let s5 := replaceCounterTokens p4.1 (opts.counter.getD 1) (opts.counterPadding.getD 3)
  let s6 := replaceAll tkOriginal pf.name s5
  let s7 := replaceAll tkExt pf.ext s6
  let s8 := replaceAll tkCustom (opts.customText.getD []) s7
  (s8, p4.2)

def resolveTokens (template : Str) (ex : Option ExifData) (orig : Str)
    (opts : RenameOptions) (now : JsDate) : Str × List Str :=
  let pre := resolvePre template ex orig opts now
  let q := stripUnresolved pre.1
  (q.1, if q.2 ≠ [] then pre.2 ++ [unresolvedHead ++ joinCS q.2] else pre.2)

/-- Model of `generateFilename` (rename.ts:91). -/
def generateFilename (template : Str) (ex : Option ExifData) (orig : Str)
    (opts : RenameOptions) (now : JsDate) : RenameResult :=
  let preserveExtension := opts.preserveExtension.getD true
  let pf := parseFilename orig
  let q := resolveTokens template ex orig opts now
  let base := sanitizeForFilename q.1
  let fn := if preserveExtension && !pf.ext.isEmpty then base ++ '.' :: pf.ext else base
  { filename := fn, success := true,
    warnings := if q.2 ≠ [] then some q.2 else none }

/-- Sample date used by the concrete evaluations below. -/
def date0 : JsDate := ⟨2024, 2, 15, 10, 30, 45, 1710498645000⟩

example :
    (generateFilename (("photo_").data ++ tkCounter) none ("img.jpg").data {} date0).filename =
      ("photo_001.jpg").data := by decide

example :
    (generateFilename tkMake none ("img.jpg").data {} date0).warnings = some [msgMake] := by
  decide

example :
    (generateFilename (tk ("bogus")) none ("a").data {} date0).warnings =
      some [unresolvedHead ++ tk ("bogus")] := by decide

/-! ## Batch renaming (rename.ts:450, `batchRename`) -/

/-- Model of a JavaScript `File` object: an identity (object reference)
and a name. -/
structure JsFile where
  id : Nat
  name : Str
deriving DecidableEq, Repr

/-- Model of `o || d` for a numeric option (`0` is falsy). -/
def jsOrInt (o : Option Int) (d : Int) : Int :=
  match o with
  | none => d
  | some x => if x = 0 then d else x

/-- The candidate filename tried by the conflict-resolution loop:
`name_k.ext` when the extension is nonempty, else `name_k`. -/
def candName (name ext : Str) (k : Nat) : Str :=
  if ext.isEmpty then name ++ '_' :: decRepr k
  else name ++ '_' :: decRepr k ++ '.' :: ext

/-- Fuel-driven model of the `do … while` loop of
`resolveFilenameConflict`: try `_1`, `_2`, … until a candidate is not in
`used`.  The loop of the source is unbounded but terminates because
`used` is finite; `used.length + 1` fuel provably suffices. -/
def resolveLoopF (name ext : Str) (used : List Str) : Nat → Nat → Str
  | 0, k => candName name ext k
  | fuel + 1, k =>
    let c := candName name ext k
    if c ∈ used then resolveLoopF name ext used fuel (k + 1) else c

/-- Model of `resolveFilenameConflict` (rename.ts:479). -/
def resolveFilenameConflict (result : RenameResult) (used : List Str) : RenameResult :=
  let pf := parseFilename result.filename
  { result with
    filename := resolveLoopF pf.name pf.ext used (used.length + 1) 1,
    warnings := some ((result.warnings.getD []) ++ [conflictMsg]) }

/-- The per-file conflict check of `batchRename` (rename.ts:468). -/
def chooseResult (r : RenameResult) (used : List Str) : RenameResult :=
  if r.filename ∈ used then resolveFilenameConflict r used else r

/-- Model of `usedFilenames.add` (a JavaScript `Set`). -/
def insertSet (s : Str) (l : List Str) : List Str := if s ∈ l then l else l ++ [s]

/-- Model of `results.set` (a JavaScript `Map` keyed by object identity):
replace the value of an existing key in place, else append. -/
def mapSet : List (JsFile × RenameResult) → JsFile → RenameResult →
    List (JsFile × RenameResult)
  | [], k, v => [(k, v)]
  | (k2, v2) :: rest, k, v =>
    if k2 = k then (k, v) :: rest else (k2, v2) :: mapSet rest k v

/-- The `files.forEach` loop of `batchRename`, with its index, used-name
set and result map made explicit. -/
def batchGo (template : Str) (exifDataMap : Str → Option ExifData) (options : RenameOptions)
    (now : JsDate) :
    List JsFile → Nat → List Str → List (JsFile × RenameResult) →
      List (JsFile × RenameResult)
  | [], _, _, results => results
  | f :: rest, index, used, results =>
    let exifData := exifDataMap f.name
    let renameOptions := { options with counter := some (jsOrInt options.startCounter 1 + index) }
    let result := chooseResult (generateFilename template exifData f.name renameOptions now) used
    batchGo template exifDataMap options now rest (index + 1)
      (insertSet result.filename used) (mapSet results f result)

/-- Model of `batchRename` (rename.ts:450).  The metadata map is modelled
as the lookup function `name ↦ exifDataMap.get(name) || null`; `now`
stands for the `new Date()` default of `generateFilename`. -/
def batchRename (files : List JsFile) (template : Str) (exifDataMap : Str → Option ExifData)
    (options : RenameOptions) (now : JsDate) : List (JsFile × RenameResult) :=
  batchGo template exifDataMap options now files 0 [] []

/-! ## Archive assembly (zip.ts) -/

/-- Model of `INCOMPRESSIBLE_TYPES` (zip.ts:18). -/
def INCOMPRESSIBLE_TYPES : List Str :=
  [("jpg").data, ("jpeg").data, ("png").data, ("gif").data, ("webp").data,
   ("heic").data, ("heif").data, ("avif").data,
   ("mp4").data, ("mov").data, ("avi").data, ("mkv").data, ("webm").data,
   ("mp3").data, ("aac").data, ("flac").data, ("m4a").data, ("ogg").data,
   ("zip").data, ("rar").data, ("7z").data, ("gz").data, ("bz2").data,
   ("pdf").data, ("docx").data, ("xlsx").data, ("pptx").data]

/-- Model of `getFileExtension` (zip.ts:347): the text after the last
dot, lower-cased; the empty string when there is no dot. -/
def getFileExtension (filename : Str) : Str :=
  match lastIndexOfDot filename with
  | none => []
  | some i => (filename.drop (i + 1)).map Char.toLower

/-- Model of `ZipOptions` (the fields the entry construction consumes). -/
structure ZipOptions where
  compressionLevel : Option Nat := none
  includeMetadata : Option Bool := none
  folderName : Option Str := none
deriving DecidableEq, Repr

/-- Per-entry compression level selected by `createZipAsync` /
`createZipSync` (zip.ts:61-62): already-compressed extensions are stored
(level 0), everything else uses `compressionLevel` (default 6). -/
def entryLevel (opts : ZipOptions) (name : Str) : Nat :=
  if getFileExtension name ∈ INCOMPRESSIBLE_TYPES then 0 else opts.compressionLevel.getD 6

/-- Entry path: `folderName/filename` when a folder name is supplied
(truthy), else the bare filename (zip.ts:54). -/
def entryPath (folderName : Str) (fn : Str) : Str :=
  if folderName.isEmpty then fn else folderName ++ '/' :: fn

/-- The entries pushed by the `for (const file of files)` loop of
`createZipAsync` (zip.ts:50-73): files without a rename result are
skipped; each other file contributes its entry path and level. -/
def zipEntryList (files : List JsFile) (renameMap : JsFile → Option RenameResult)
    (opts : ZipOptions) : List (Str × Nat) :=
  files.filterMap (fun f =>
    (renameMap f).map (fun r =>
      (entryPath (opts.folderName.getD []) r.filename, entryLevel opts f.name)))

/-! ## Template parsing (rename.ts:53, `parseTemplate`) -/

/-- Model of `TemplateToken`. -/
structure TemplateToken where
  token : Str
  fullToken : Str
  position : Nat
  isValid : Bool
deriving DecidableEq, Repr

/-- The keys of the `TEMPLATE_TOKENS` catalogue (rename.ts:4). -/
def templateTokenKeys : List Str :=
  [tkYYYY, tkYY, tkMM, tkDD, tkHH, tkmmTok, tkssTok,
   tkDate, tkDatetime, tkTimestamp,
   tkMake, tkModel, tkLens,
   tkIso, tkAperture, tkShutter, tkFocal,
   tkWidth, tkHeight, tkDims, tkOrientation,
   tkLat, tkLng, tkGps,
   tkCounter, tk ("counter:5"),
   tkOriginal, tkExt, tkCustom]

/-- Model of the `^counter:\d+$` test of `isValidToken`. -/
def isCounterPadName (n : Str) : Bool :=
  ("counter:").data.isPrefixOf n &&
    (let ds := n.drop 8
     !ds.isEmpty && ds.all Char.isDigit)

/-- Model of `isValidToken` (rename.ts:77). -/
def isValidToken (n : Str) : Bool :=
  templateTokenKeys.contains (tokenStr n) || isCounterPadName n

/-- Fuel-driven scanner for the global regex `\{([^}]+)\}` starting at a
given absolute position, producing the `TemplateToken` records in match
order. -/
def scanTokensF : Nat → Str → Nat → List TemplateToken
  | 0, _, _ => []
  | _ + 1, [], _ => []
  | fuel + 1, c :: rest, pos =>
    if c = '{' then
      let inner := rest.takeWhile (fun x => x != '}')
      if inner ≠ [] ∧ rest.drop inner.length ≠ [] then
        ⟨inner, '{' :: inner ++ ['}'], pos, isValidToken inner⟩ ::
          scanTokensF fuel (rest.drop (inner.length + 1)) (pos + inner.length + 2)
      else scanTokensF fuel rest (pos + 1)
    else scanTokensF fuel rest (pos + 1)

/-- The observable mutable state of the module-level `TOKEN_REGEX` (its
`lastIndex`, since the regex is constructed with the `g` flag). -/
structure RegexState where
  lastIndex : Nat
deriving DecidableEq, Repr

/-- Stateful model of `parseTemplate` (rename.ts:55): the function first
writes `TOKEN_REGEX.lastIndex = 0` (discarding whatever state earlier
calls left behind), scans all matches, and leaves `lastIndex` at 0 (a
failed `exec` of a global regex resets it). -/
def parseTemplateS (_st : RegexState) (template : Str) : List TemplateToken × RegexState :=
  (scanTokensF (template.length + 1) template 0, ⟨0⟩)

/-- Model of `parseTemplate` as used by callers. -/
def parseTemplate (template : Str) : List TemplateToken :=
  (parseTemplateS ⟨0⟩ template).1

example :
    parseTemplate (tkYYYY ++ '-' :: tk ("bogus")) =
      [⟨("YYYY").data, tkYYYY, 0, true⟩, ⟨("bogus").data, tk ("bogus"), 7, false⟩] := by
  decide

example : isValidToken (("counter:12").data) = true := by decide
example : isValidToken (("counter:").data) = false := by decide

/-! ## Claim C9: idempotence of the final filename sanitizer -/

theorem mem_sanitize (s : Str) (c : Char) (h : c ∈ sanitizeForFilename s) :
    c = '_' ∨ (c ∈ s ∧ isIllegal c = false ∧ isJsWs c = false) := by
  rcases collapseAux_mem isUnd '_' _ false c h with h1 | ⟨h1, -⟩
  · exact Or.inl h1
  · rcases collapseAux_mem isJsWs '_' _ false c h1 with h2 | ⟨h2, h3⟩
    · exact Or.inl h2
    · rcases List.mem_filter.mp h2 with ⟨h4, h5⟩
      refine Or.inr ⟨h4, ?_, h3⟩
      simpa using h5

/-- C9: the final filename sanitization (strip `<>:"/\|?*`, collapse
whitespace runs to an underscore, collapse underscore runs) is
idempotent: sanitizing an already-sanitized string is a no-op. -/
theorem C9_sanitize_idempotent (s : Str) :
    sanitizeForFilename (sanitizeForFilename s) = sanitizeForFilename s := by
  show collapse isUnd '_' (collapse isJsWs '_'
    ((sanitizeForFilename s).filter (fun c => !isIllegal c))) = sanitizeForFilename s
  have hA : (sanitizeForFilename s).filter (fun c => !isIllegal c) = sanitizeForFilename s := by
    rw [List.filter_eq_self]
    intro c hc
    rcases mem_sanitize s c hc with h | ⟨-, h2, -⟩
    · subst h; decide
    · simpa using h2
  rw [hA]
  have hB : collapse isJsWs '_' (sanitizeForFilename s) = sanitizeForFilename s := by
    apply collapseAux_of_no_p
    intro c hc
    rcases mem_sanitize s c hc with h | ⟨-, -, h3⟩
    · subst h; decide
    · exact h3
  rw [hB]
  apply collapseAux_id_of_noAdj
  · intro c h
    simpa [isUnd, beq_iff_eq] using h
  · exact (collapseAux_noAdj isUnd '_' _ false).1
  · intro h; cases h

/-! ## Claim C8: shutter-speed formatting -/

/-- C8: for every positive exposure-time value `t`, the `{shutter}` token
renders as `"{t}s"` when `t ≥ 1` and as `"1/{round(1/t)}s"` when
`t < 1`; in particular `t = 0.004` renders `"1/250s"`. -/
theorem C8_shutter_format :
    (∀ q : ℚ, 0 < q →
      formatShutterSpeed q =
        if 1 ≤ q then qRepr q ++ ['s']
        else '1' :: '/' :: intRepr (jsRound (1 / q)) ++ ['s']) ∧
    formatShutterSpeed (1 / 250) = ("1/250s").data ∧
    formatShutterSpeed 2 = ("2s").data := by
  refine ⟨?_, by decide, by decide⟩
  intro q hq
  unfold formatShutterSpeed
  rw [if_neg hq.ne', if_neg (not_le.mpr hq)]

theorem C8_shutter_format_witness :
    0 < (1 / 250 : ℚ) ∧
      formatShutterSpeed (1 / 250) =
        if 1 ≤ (1 / 250 : ℚ) then qRepr (1 / 250) ++ ['s']
        else '1' :: '/' :: intRepr (jsRound (1 / (1 / 250 : ℚ))) ++ ['s'] :=
  ⟨by norm_num, C8_shutter_format.1 (1 / 250) (by norm_num)⟩

/-! ## Claim C5: purity of the template parser -/

/-- C5: `parseTemplate` is pure: in the stateful model of the module
level global regex (whose `lastIndex` is the only mutable parser state),
the token sequence returned does not depend on the incoming state, two
consecutive parses of the same template (threading the state) agree, and
interleaving parses of other templates does not change the result. -/
theorem C5_parseTemplate_pure (st1 st2 : RegexState) (t u : Str) :
    (parseTemplateS st1 t).1 = (parseTemplateS st2 t).1 ∧
    (parseTemplateS (parseTemplateS st1 t).2 t).1 = (parseTemplateS st1 t).1 ∧
    (parseTemplateS (parseTemplateS st1 u).2 t).1 = (parseTemplateS st1 t).1 ∧
    parseTemplate t = (parseTemplateS st1 t).1 :=
  ⟨rfl, rfl, rfl, rfl⟩

/-! ## Claim C6: per-entry compression selection -/

/-- C6: in archive creation, every entry whose original filename's
extension (lower-cased by `getFileExtension`, hence compared
case-insensitively) belongs to the fixed already-compressed set is stored
at level 0, and every other entry is compressed at
`options.compressionLevel`, defaulting to 6. -/
theorem C6_zip_compression (files : List JsFile) (renameMap : JsFile → Option RenameResult)
    (opts : ZipOptions) (f : JsFile) (r : RenameResult)
    (hf : f ∈ files) (hr : renameMap f = some r) :
    (entryPath (opts.folderName.getD []) r.filename, entryLevel opts f.name) ∈
        zipEntryList files renameMap opts ∧
      entryLevel opts f.name =
        (if getFileExtension f.name ∈ INCOMPRESSIBLE_TYPES then 0
         else opts.compressionLevel.getD 6) ∧
      (opts.compressionLevel = none →
        entryLevel opts f.name =
          (if getFileExtension f.name ∈ INCOMPRESSIBLE_TYPES then 0 else 6)) := by
  refine ⟨?_, rfl, ?_⟩
  · exact List.mem_filterMap.mpr ⟨f, hf, by rw [hr]; rfl⟩
  · intro h
    simp [entryLevel, h]

theorem C6_zip_compression_witness :
    ((entryPath [] (("beach.jpg").data), 0) ∈
        zipEntryList [⟨1, ("beach.JPG").data⟩, ⟨2, ("notes.txt").data⟩]
          (fun f => if f.id = 1 then some ⟨("beach.jpg").data, true, none⟩
                    else some ⟨("notes.txt").data, true, none⟩)
          {}) ∧
      entryLevel {} (("beach.JPG").data) = 0 ∧
      entryLevel {} (("notes.txt").data) = 6 ∧
      entryLevel ⟨some 9, none, none⟩ (("notes.txt").data) = 9 := by
  refine ⟨?_, by decide, by decide, by decide⟩
  exact (C6_zip_compression [⟨1, ("beach.JPG").data⟩, ⟨2, ("notes.txt").data⟩]
    (fun f => if f.id = 1 then some ⟨("beach.jpg").data, true, none⟩
              else some ⟨("notes.txt").data, true, none⟩)
    {} ⟨1, ("beach.JPG").data⟩ ⟨("beach.jpg").data, true, none⟩
    (by decide) (by decide)).1

/-! ## Claim C7: extension preservation (corrected: no lower-casing) -/

/-- C7 counterexample: the claim says the preserved extension is
lower-cased; the code appends it unchanged.  For template `"x"` and
original filename `"a.JPG"` the returned filename is `"x.JPG"`, not the
claimed sanitized base followed by the lower-cased extension
(`"x.jpg"`). -/
theorem C7_counterexample :
    (generateFilename (("x").data) none (("a.JPG").data) {} date0).filename =
        ("x.JPG").data ∧
      ("x.JPG").data ≠
        sanitizeForFilename (resolveTokens (("x").data) none (("a.JPG").data) {} date0).1 ++
          '.' :: ((parseFilename (("a.JPG").data)).ext.map Char.toLower) := by
  refine ⟨by decide, by decide⟩

/-- C7 (amended): with `preserveExtension` true (its default) and an
original filename having an extension, the returned filename is the
sanitized resolved base followed by `.` and that extension exactly as it
appears in the original filename (the code performs no lower-casing). -/
theorem C7_preserve_extension (t : Str) (ex : Option ExifData) (orig : Str)
    (opts : RenameOptions) (now : JsDate)
    (hp : opts.preserveExtension.getD true = true)
    (he : (parseFilename orig).ext ≠ []) :
    (generateFilename t ex orig opts now).filename =
      sanitizeForFilename (resolveTokens t ex orig opts now).1 ++
        '.' :: (parseFilename orig).ext := by
  have hne : (parseFilename orig).ext.isEmpty = false := by
    simpa [List.isEmpty_iff] using he
  unfold generateFilename
  simp only [hp, hne]
  rfl

theorem C7_preserve_extension_witness :
    ((({} : RenameOptions).preserveExtension.getD true = true) ∧
      (parseFilename (("a.JPG").data)).ext ≠ []) ∧
    (generateFilename (("x").data) none (("a.JPG").data) {} date0).filename =
      sanitizeForFilename (resolveTokens (("x").data) none (("a.JPG").data) {} date0).1 ++
        '.' :: (parseFilename (("a.JPG").data)).ext :=
  ⟨⟨rfl, by decide⟩,
    C7_preserve_extension (("x").data) none (("a.JPG").data) {} date0 rfl (by decide)⟩

/-! ## Conflict resolution: freshness and minimality -/

theorem candName_inj (name ext : Str) :
    ∀ k1 k2 : Nat, candName name ext k1 = candName name ext k2 → k1 = k2 := by
  intro k1 k2 h
  unfold candName at h
  by_cases he : ext.isEmpty
  · simp only [he, if_true] at h
    have h2 := List.append_cancel_left h
    have h3 := (List.cons.injEq .. ▸ h2).2
    exact decRepr_inj _ _ h3
  · simp only [he, if_false, Bool.false_eq_true] at h
    have h2 := List.append_cancel_right h
    have h3 := List.append_cancel_left h2
    exact decRepr_inj _ _ (List.cons.injEq .. ▸ h3).2

theorem cand_fresh_exists (name ext : Str) (used : List Str) :
    ∃ k, 1 ≤ k ∧ k ≤ used.length + 1 ∧ candName name ext k ∉ used := by
  by_contra hcon
  push_neg at hcon
  have hinj : Function.Injective (fun i : Nat => candName name ext (i + 1)) := by
    intro a b h
    have := candName_inj name ext (a + 1) (b + 1) h
    omega
  have hnd : ((List.range (used.length + 1)).map
      (fun i => candName name ext (i + 1))).Nodup :=
    (List.nodup_range _).map hinj
  have hsub : ∀ x ∈ (List.range (used.length + 1)).map (fun i => candName name ext (i + 1)),
      x ∈ used := by
    intro x hx
    rcases List.mem_map.mp hx with ⟨i, hi, rfl⟩
    exact hcon (i + 1) (by omega) (by have := List.mem_range.mp hi; omega)
  have h1 : ((List.range (used.length + 1)).map
      (fun i => candName name ext (i + 1))).toFinset.card = used.length + 1 := by
    rw [List.toFinset_card_of_nodup hnd]
    simp
  have h2 : ((List.range (used.length + 1)).map
      (fun i => candName name ext (i + 1))).toFinset ⊆ used.toFinset := by
    intro x hx
    exact List.mem_toFinset.mpr (hsub x (List.mem_toFinset.mp hx))
  have h3 := Finset.card_le_card h2
  have h4 := used.toFinset_card_le
  omega

theorem resolveLoopF_spec (name ext : Str) (used : List Str) :
    ∀ fuel start, (∃ k, start ≤ k ∧ k < start + fuel ∧ candName name ext k ∉ used) →
      (resolveLoopF name ext used fuel start ∉ used ∧
        ∃ k, start ≤ k ∧ resolveLoopF name ext used fuel start = candName name ext k ∧
          ∀ j, start ≤ j → j < k → candName name ext j ∈ used) := by
  intro fuel
  induction fuel with
  | zero =>
    rintro start ⟨k, hk1, hk2, -⟩
    omega
  | succ fuel ih =>
    rintro start ⟨k, hk1, hk2, hk3⟩
    simp only [resolveLoopF]
    by_cases hc : candName name ext start ∈ used
    · rw [if_pos hc]
      have hks : k ≠ start := fun h => hk3 (h ▸ hc)
      obtain ⟨h1, k2, h2, h3, h4⟩ := ih (start + 1) ⟨k, by omega, by omega, hk3⟩
      refine ⟨h1, k2, by omega, h3, ?_⟩
      intro j hj1 hj2
      by_cases hj : j = start
      · exact hj ▸ hc
      · exact h4 j (by omega) hj2
    · rw [if_neg hc]
      exact ⟨hc, start, le_refl _, rfl, fun j hj1 hj2 => by omega⟩

theorem resolveFilenameConflict_spec (r : RenameResult) (used : List Str) :
    ((resolveFilenameConflict r used).filename ∉ used) ∧
    (∃ k, 1 ≤ k ∧
      (resolveFilenameConflict r used).filename =
        candName (parseFilename r.filename).name (parseFilename r.filename).ext k ∧
      ∀ j, 1 ≤ j → j < k →
        candName (parseFilename r.filename).name (parseFilename r.filename).ext j ∈ used) ∧
    (resolveFilenameConflict r used).warnings = some ((r.warnings.getD []) ++ [conflictMsg]) := by
  obtain ⟨k, hk1, hk2, hk3⟩ :=
    cand_fresh_exists (parseFilename r.filename).name (parseFilename r.filename).ext used
  obtain ⟨h1, k2, h2, h3, h4⟩ :=
    resolveLoopF_spec (parseFilename r.filename).name (parseFilename r.filename).ext used
      (used.length + 1) 1 ⟨k, hk1, by omega, hk3⟩
  exact ⟨h1, ⟨k2, h2, h3, h4⟩, rfl⟩

theorem chooseResult_fresh (r : RenameResult) (used : List Str) :
    (chooseResult r used).filename ∉ used := by
  unfold chooseResult
  by_cases h : r.filename ∈ used
  · rw [if_pos h]
    exact (resolveFilenameConflict_spec r used).1
  · rw [if_neg h]
    exact h

/-! ## Batch map invariants -/

/-- The result filenames stored in a result map, in entry order. -/
def valueNames (m : List (JsFile × RenameResult)) : List Str :=
  m.map (fun p => p.2.filename)

theorem mem_insertSet_of_mem (x s : Str) (l : List Str) (h : x ∈ l) : x ∈ insertSet s l := by
  unfold insertSet
  split
  · exact h
  · exact List.mem_append_left _ h

theorem self_mem_insertSet (s : Str) (l : List Str) : s ∈ insertSet s l := by
  unfold insertSet
  split
  · assumption
  · simp

theorem valueNames_cons (p : JsFile × RenameResult) (m : List (JsFile × RenameResult)) :
    valueNames (p :: m) = p.2.filename :: valueNames m := rfl

theorem valueNames_mapSet_subset :
    ∀ (m : List (JsFile × RenameResult)) (k : JsFile) (v : RenameResult) (n : Str),
      n ∈ valueNames (mapSet m k v) → n = v.filename ∨ n ∈ valueNames m := by
  intro m
  induction m with
  | nil =>
    intro k v n hn
    simp [mapSet, valueNames] at hn
    exact Or.inl hn
  | cons p m2 ih =>
    intro k v n hn
    obtain ⟨k2, v2⟩ := p
    simp only [mapSet] at hn
    split at hn
    · rw [valueNames_cons] at hn
      rcases List.mem_cons.mp hn with h | h
      · exact Or.inl h
      · exact Or.inr (by rw [valueNames_cons]; exact List.mem_cons_of_mem _ h)
    · rw [valueNames_cons] at hn
      rcases List.mem_cons.mp hn with h | h
      · exact Or.inr (by rw [valueNames_cons]; exact List.mem_cons.mpr (Or.inl h))
      · rcases ih k v n h with h2 | h2
        · exact Or.inl h2
        · exact Or.inr (by rw [valueNames_cons]; exact List.mem_cons_of_mem _ h2)

theorem mapSet_invariant (used : List Str) (v : RenameResult) (hv : v.filename ∉ used) :
    ∀ (m : List (JsFile × RenameResult)) (k : JsFile),
      (∀ n ∈ valueNames m, n ∈ used) → (valueNames m).Pairwise (· ≠ ·) →
      ((∀ n ∈ valueNames (mapSet m k v), n ∈ insertSet v.filename used) ∧
        (valueNames (mapSet m k v)).Pairwise (· ≠ ·)) := by
  intro m
  induction m with
  | nil =>
    intro k hsub _
    constructor
    · intro n hn
      simp [mapSet, valueNames] at hn
      exact hn ▸ self_mem_insertSet _ _
    · simp [mapSet, valueNames]
  | cons p m2 ih =>
    intro k hsub hpw
    obtain ⟨k2, v2⟩ := p
    rw [valueNames_cons] at hsub hpw
    have hsub2 : ∀ n ∈ valueNames m2, n ∈ used :=
      fun n hn => hsub n (List.mem_cons_of_mem _ hn)
    have hpw2 : (valueNames m2).Pairwise (· ≠ ·) := (List.pairwise_cons.mp hpw).2
    have hhead : v2.filename ∈ used := hsub _ (List.mem_cons_self _ _)
    simp only [mapSet]
    split
    · constructor
      · intro n hn
        rw [valueNames_cons] at hn
        rcases List.mem_cons.mp hn with h | h
        · exact h ▸ self_mem_insertSet _ _
        · exact mem_insertSet_of_mem _ _ _ (hsub2 n h)
      · rw [valueNames_cons]
        refine List.pairwise_cons.mpr ⟨?_, hpw2⟩
        intro n hn hcon
        apply hv
        rw [show RenameResult.filename v = n from hcon]
        exact hsub2 n hn
    · obtain ⟨ih1, ih2⟩ := ih k hsub2 hpw2
      constructor
      · intro n hn
        rw [valueNames_cons] at hn
        rcases List.mem_cons.mp hn with h | h
        · exact h ▸ mem_insertSet_of_mem _ _ _ hhead
        · exact ih1 n h
      · rw [valueNames_cons]
        refine List.pairwise_cons.mpr ⟨?_, ih2⟩
        intro n hn hcon
        rcases valueNames_mapSet_subset m2 k v n hn with h | h
        · apply hv
          have e1 : RenameResult.filename v2 = n := hcon
          rw [← h, ← e1]
          exact hhead
        · exact absurd hcon ((List.pairwise_cons.mp hpw).1 n h)

theorem batchGo_pairwise (t : Str) (emap : Str → Option ExifData) (opts : RenameOptions)
    (now : JsDate) :
    ∀ (fs : List JsFile) (idx : Nat) (used : List Str)
      (results : List (JsFile × RenameResult)),
      (∀ n ∈ valueNames results, n ∈ used) →
      (valueNames results).Pairwise (· ≠ ·) →
      (valueNames (batchGo t emap opts now fs idx used results)).Pairwise (· ≠ ·) := by
  intro fs
  induction fs with
  | nil =>
    intro idx used results _ hpw
    exact hpw
  | cons f rest ih =>
    intro idx used results hsub hpw
    simp only [batchGo]
    apply ih
    · exact (mapSet_invariant used _ (chooseResult_fresh _ used) results f hsub hpw).1
    · exact (mapSet_invariant used _ (chooseResult_fresh _ used) results f hsub hpw).2

/-- C1: for every input file list, template, metadata map and options,
the output filenames stored in the map returned by `batchRename` are
pairwise distinct: every assigned filename is fresh with respect to the
`usedFilenames` set (conflicts having been resolved), and the set
contains all previously assigned names. -/
theorem C1_batch_filenames_distinct (files : List JsFile) (template : Str)
    (exifDataMap : Str → Option ExifData) (options : RenameOptions) (now : JsDate) :
    ((batchRename files template exifDataMap options now).map
      (fun p => p.2.filename)).Pairwise (· ≠ ·) := by
  exact batchGo_pairwise template exifDataMap options now files 0 [] []
    (by simp [valueNames]) (by simp [valueNames])

/-! ## Positional structure of `batchRename` (claims C2 and C4) -/

theorem mapSet_append_of_not_key :
    ∀ (m : List (JsFile × RenameResult)) (k : JsFile) (v : RenameResult),
      (∀ p ∈ m, p.1 ≠ k) → mapSet m k v = m ++ [(k, v)] := by
  intro m
  induction m with
  | nil => intro k v _; rfl
  | cons p m2 ih =>
    intro k v hk
    obtain ⟨k2, v2⟩ := p
    simp only [mapSet]
    rw [if_neg (hk (k2, v2) (List.mem_cons_self _ _)), ih k v
      (fun q hq => hk q (List.mem_cons_of_mem _ hq))]
    rfl

theorem batchGo_append (t : Str) (emap : Str → Option ExifData) (opts : RenameOptions)
    (now : JsDate) :
    ∀ (fs : List JsFile) (idx : Nat) (used : List Str)
      (results : List (JsFile × RenameResult)),
      fs.Nodup →
      (∀ p ∈ results, ∀ g ∈ fs, p.1 ≠ g) →
      ∃ tail, batchGo t emap opts now fs idx used results = results ++ tail ∧
        tail.length = fs.length ∧
        ∀ j (hj : j < fs.length), ∃ u,
          tail[j]? = some (fs.get ⟨j, hj⟩,
            chooseResult (generateFilename t (emap (fs.get ⟨j, hj⟩).name) (fs.get ⟨j, hj⟩).name
              { opts with counter := some (jsOrInt opts.startCounter 1 + ((idx + j : Nat) : Int)) }
              now) u) := by
  intro fs
  induction fs with
  | nil =>
    intro idx used results _ _
    exact ⟨[], by simp [batchGo], rfl, fun j hj => absurd hj (by simp)⟩
  | cons f rest ih =>
    intro idx used results hnd hkeys
    have hfk : ∀ p ∈ results, p.1 ≠ f := fun p hp => hkeys p hp f (List.mem_cons_self _ _)
    have hfr : f ∉ rest := (List.nodup_cons.mp hnd).1
    simp only [batchGo]
    rw [mapSet_append_of_not_key results f _ hfk]
    have hkeys2 : ∀ p ∈ results ++
        [(f, chooseResult (generateFilename t (emap f.name) f.name
          { opts with counter := some (jsOrInt opts.startCounter 1 + (idx : Int)) } now) used)],
        ∀ g ∈ rest, p.1 ≠ g := by
      intro p hp g hg
      rcases List.mem_append.mp hp with hp | hp
      · exact hkeys p hp g (List.mem_cons_of_mem _ hg)
      · simp at hp
        rw [hp]
        intro hcon
        apply hfr
        rw [show f = g from hcon]
        exact hg
    obtain ⟨tail2, heq, hlen, hspec⟩ :=
      ih (idx + 1) (insertSet _ used) _ (List.nodup_cons.mp hnd).2 hkeys2
    refine ⟨(f, chooseResult (generateFilename t (emap f.name) f.name
      { opts with counter := some (jsOrInt opts.startCounter 1 + (idx : Int)) } now) used) ::
        tail2, ?_, by simpa using hlen, ?_⟩
    · rw [heq, List.append_assoc]
      rfl
    · intro j hj
      cases j with
      | zero =>
        refine ⟨used, ?_⟩
        simp only [List.getElem?_cons_zero]
        rw [show ((f :: rest).get ⟨0, hj⟩) = f from rfl, Nat.add_zero]
      | succ j =>
        have hj2 : j < rest.length := by simpa using hj
        obtain ⟨u, hu⟩ := hspec j hj2
        refine ⟨u, ?_⟩
        simp only [List.getElem?_cons_succ]
        rw [show ((f :: rest).get ⟨j + 1, hj⟩) = rest.get ⟨j, hj2⟩ from rfl]
        have e : idx + 1 + j = idx + (j + 1) := by omega
        rw [e] at hu
        exact hu

/-- C2 (amended): `batchRename` assigns to the file at index `i` the
counter `(options.startCounter || 1) + i`: the supplied `startCounter`
when it is a nonzero number, else 1 (both for an absent and for a zero
`startCounter`, since `||` treats 0 as falsy).  The counter expression
does not mention the metadata map, so counters are independent of
metadata contents or arrival order; with `startCounter = 1` they are
`1..N` in input order. -/
theorem C2_counter_assignment (files : List JsFile) (template : Str)
    (exifDataMap : Str → Option ExifData) (options : RenameOptions) (now : JsDate)
    (hnd : files.Nodup) (i : Nat) (hi : i < files.length) :
    (batchRename files template exifDataMap options now).length = files.length ∧
    ∃ u, (batchRename files template exifDataMap options now)[i]? =
      some (files.get ⟨i, hi⟩,
        chooseResult (generateFilename template (exifDataMap (files.get ⟨i, hi⟩).name)
          (files.get ⟨i, hi⟩).name
          { options with counter := some (jsOrInt options.startCounter 1 + (i : Int)) }
          now) u) := by
  obtain ⟨tail, heq, hlen, hspec⟩ :=
    batchGo_append template exifDataMap options now files 0 [] [] hnd (by simp)
  have hb : batchRename files template exifDataMap options now = tail := heq
  rw [hb]
  refine ⟨hlen, ?_⟩
  obtain ⟨u, hu⟩ := hspec i hi
  have e : (0 : Nat) + i = i := by omega
  rw [e] at hu
  exact ⟨u, hu⟩

theorem C2_counter_assignment_witness :
    (([⟨1, ("a.jpg").data⟩, ⟨2, ("b.jpg").data⟩] : List JsFile).Nodup ∧
      1 < ([⟨1, ("a.jpg").data⟩, ⟨2, ("b.jpg").data⟩] : List JsFile).length) ∧
    ((batchRename [⟨1, ("a.jpg").data⟩, ⟨2, ("b.jpg").data⟩] tkCounter (fun _ => none) {}
        date0).length = 2 ∧
      ∃ u, (batchRename [⟨1, ("a.jpg").data⟩, ⟨2, ("b.jpg").data⟩] tkCounter (fun _ => none) {}
          date0)[1]? =
        some (([⟨1, ("a.jpg").data⟩, ⟨2, ("b.jpg").data⟩] : List JsFile).get ⟨1, by decide⟩,
          chooseResult (generateFilename tkCounter none (("b.jpg").data)
            { ({} : RenameOptions) with
              counter := some (jsOrInt ({} : RenameOptions).startCounter 1 + ((1 : Nat) : Int)) }
            date0) u)) :=
  ⟨⟨by decide, by decide⟩,
    C2_counter_assignment [⟨1, ("a.jpg").data⟩, ⟨2, ("b.jpg").data⟩] tkCounter (fun _ => none)
      {} date0 (by decide) 1 (by decide)⟩

/-- C2 counterexample: the claim as stated says the counter is
`options.startCounter + i` whenever `startCounter` is supplied.  With
`startCounter = 0` the code computes `options.startCounter || 1`, i.e. 1,
so the single file at index 0 is rendered with counter 1 (`"001.jpg"`),
whereas the claimed counter 0 would render `"000.jpg"`. -/
theorem C2_counterexample :
    ((batchRename [⟨1, ("a.jpg").data⟩] tkCounter (fun _ => none)
        { startCounter := some 0 } date0).map (fun p => p.2.filename) =
      [("001.jpg").data]) ∧
    (generateFilename tkCounter none (("a.jpg").data)
        { startCounter := some 0, counter := some (0 + (0 : Int)) } date0).filename =
      ("000.jpg").data ∧
    ("001.jpg").data ≠ ("000.jpg").data :=
  ⟨by decide, by decide, by decide⟩

/-- C4: `resolveFilenameConflict` splits the computed filename into base
and extension and tries suffixes `_1`, `_2`, `_3`, … in increasing order
until a name not yet used is found (the returned name is the minimal
fresh candidate and is not in the used set), adds the warning
"Filename conflict resolved with numeric suffix", and `batchRename`
invokes it (via the conflict check) exactly when the computed filename is
already assigned.  Determinism is inherent: the resolution is a pure
function of the candidate and the used set. -/
theorem C4_conflict_resolution (r : RenameResult) (used : List Str) :
    ((resolveFilenameConflict r used).filename ∉ used) ∧
    (∃ k, 1 ≤ k ∧
      (resolveFilenameConflict r used).filename =
        candName (parseFilename r.filename).name (parseFilename r.filename).ext k ∧
      ∀ j, 1 ≤ j → j < k →
        candName (parseFilename r.filename).name (parseFilename r.filename).ext j ∈ used) ∧
    ((resolveFilenameConflict r used).warnings =
      some ((r.warnings.getD []) ++ [conflictMsg])) ∧
    (r.filename ∈ used → chooseResult r used = resolveFilenameConflict r used) ∧
    (r.filename ∉ used → chooseResult r used = r) := by
  refine ⟨(resolveFilenameConflict_spec r used).1, (resolveFilenameConflict_spec r used).2.1,
    (resolveFilenameConflict_spec r used).2.2, ?_, ?_⟩
  · intro h
    unfold chooseResult
    rw [if_pos h]
  · intro h
    unfold chooseResult
    rw [if_neg h]

theorem C4_conflict_resolution_witness :
    ((resolveFilenameConflict ⟨("shot.jpg").data, true, none⟩ [("shot.jpg").data]).filename ∉
        [("shot.jpg").data]) ∧
      (resolveFilenameConflict ⟨("shot.jpg").data, true, none⟩ [("shot.jpg").data]).filename =
        ("shot_1.jpg").data ∧
      (resolveFilenameConflict ⟨("shot.jpg").data, true, none⟩ [("shot.jpg").data]).warnings =
        some [conflictMsg] ∧
      chooseResult ⟨("shot.jpg").data, true, none⟩ [("shot.jpg").data] =
        resolveFilenameConflict ⟨("shot.jpg").data, true, none⟩ [("shot.jpg").data] :=
  ⟨(C4_conflict_resolution ⟨("shot.jpg").data, true, none⟩ [("shot.jpg").data]).1,
    by decide, by decide,
    (C4_conflict_resolution ⟨("shot.jpg").data, true, none⟩
      [("shot.jpg").data]).2.2.2.1 (by decide)⟩

/-! ## Survival of token occurrences through the resolution pipeline -/

theorem replaceAll_survives (pn gn rep : Str) (hpn : TokName pn) (hgn : TokName gn)
    (hne : gn ≠ pn) (s : Str) (h : strContains s (tokenStr gn) = true) :
    strContains (replaceAll (tokenStr pn) rep s) (tokenStr gn) = true := by
  rw [strContains_iff] at h ⊢
  exact survival pn gn rep hpn hgn hne s.length s (le_refl _) h

/-- Survival through a fold of literal replacements whose patterns are
tokens with names different from the target. -/
theorem foldReplace_survives (gn : Str) (hgn : TokName gn) :
    ∀ (prs : List (Str × Str)),
      (∀ pr ∈ prs, ∃ pn, pr.1 = tokenStr pn ∧ TokName pn ∧ gn ≠ pn) →
      ∀ t, strContains t (tokenStr gn) = true →
        strContains (prs.foldl (fun s pr => replaceAll pr.1 pr.2 s) t) (tokenStr gn) = true := by
  intro prs
  induction prs with
  | nil => intro _ t h; exact h
  | cons pr rest ih =>
    intro hall t h
    obtain ⟨pn, hp1, hp2, hp3⟩ := hall pr (List.mem_cons_self _ _)
    simp only [List.foldl_cons]
    apply ih (fun q hq => hall q (List.mem_cons_of_mem _ hq))
    rw [hp1]
    exact replaceAll_survives pn gn pr.2 hp2 hgn hp3 t h

theorem tokBlock_survives (pn gn : Str) (hpn : TokName pn) (hgn : TokName gn) (hne : gn ≠ pn)
    (v : Option Str) (msg : Str) (p : Str × List Str)
    (h : strContains p.1 (tokenStr gn) = true) :
    strContains (tokBlock (tokenStr pn) v msg p).1 (tokenStr gn) = true := by
  unfold tokBlock
  split
  · match v with
    | some rep => exact replaceAll_survives pn gn rep hpn hgn hne p.1 h
    | none => exact replaceAll_survives pn gn [] hpn hgn hne p.1 h
  · exact h

theorem runBlocks_survives (gn : Str) (hgn : TokName gn) :
    ∀ (specs : List (Str × Option Str × Str)),
      (∀ spec ∈ specs, ∃ pn, spec.1 = tokenStr pn ∧ TokName pn ∧ gn ≠ pn) →
      ∀ p : Str × List Str, strContains p.1 (tokenStr gn) = true →
        strContains (runBlocks specs p).1 (tokenStr gn) = true := by
  intro specs
  induction specs with
  | nil => intro _ p h; exact h
  | cons spec rest ih =>
    intro hall p h
    obtain ⟨pn, hp1, hp2, hp3⟩ := hall spec (List.mem_cons_self _ _)
    simp only [runBlocks, List.foldl_cons]
    apply ih (fun q hq => hall q (List.mem_cons_of_mem _ hq))
    rw [hp1]
    exact tokBlock_survives pn gn hp2 hgn hp3 spec.2.1 spec.2.2 p h

/-! ## Warning structure of the token blocks -/

theorem tokBlock_snd (tok : Str) (v : Option Str) (msg : Str) (p : Str × List Str) :
    (tokBlock tok v msg p).2 =
      p.2 ++ (if strContains p.1 tok = true ∧ v = none then [msg] else []) := by
  unfold tokBlock
  by_cases hc : strContains p.1 tok = true
  · rw [if_pos hc]
    match v with
    | some rep => simp
    | none => simp [hc]
  · rw [if_neg hc]
    rw [if_neg (fun hh => hc hh.1)]
    simp

theorem orientBlock_snd (ex : Option ExifData) (p : Str × List Str) :
    (orientBlock ex p).2 = p.2 := by
  unfold orientBlock
  split <;> rfl

theorem runBlocks_decomp :
    ∀ (specs : List (Str × Option Str × Str)) (p : Str × List Str),
      ∃ A, (runBlocks specs p).2 = p.2 ++ A ∧ List.Sublist A (specs.map (fun sp => sp.2.2)) := by
  intro specs
  induction specs with
  | nil => intro p; exact ⟨[], by simp [runBlocks], List.Sublist.refl _⟩
  | cons spec rest ih =>
    intro p
    obtain ⟨A, hA, hsub⟩ := ih (tokBlock spec.1 spec.2.1 spec.2.2 p)
    simp only [runBlocks, List.foldl_cons] at hA ⊢
    rw [hA, tokBlock_snd]
    by_cases hc : strContains p.1 spec.1 = true ∧ spec.2.1 = none
    · rw [if_pos hc]
      exact ⟨[spec.2.2] ++ A, by simp, by simpa using List.Sublist.cons₂ spec.2.2 hsub⟩
    · rw [if_neg hc]
      exact ⟨A, by simp, List.Sublist.cons spec.2.2 hsub⟩

theorem runBlocks_count_le (msg : Str) (specs : List (Str × Option Str × Str))
    (p : Str × List Str) :
    ((runBlocks specs p).2).count msg ≤
      p.2.count msg + (specs.map (fun sp => sp.2.2)).count msg := by
  obtain ⟨A, hA, hsub⟩ := runBlocks_decomp specs p
  rw [hA, List.count_append]
  exact Nat.add_le_add_left (hsub.count_le msg) _

theorem runBlocks_count_ge (gn : Str) (hgn : TokName gn) (msg : Str)
    (pre post : List (Str × Option Str × Str)) (p : Str × List Str)
    (hpre : ∀ spec ∈ pre, ∃ pn, spec.1 = tokenStr pn ∧ TokName pn ∧ gn ≠ pn)
    (hc : strContains p.1 (tokenStr gn) = true) :
    p.2.count msg + 1 ≤
      ((runBlocks (pre ++ (tokenStr gn, none, msg) :: post) p).2).count msg := by
  have hsplit : runBlocks (pre ++ (tokenStr gn, none, msg) :: post) p =
      runBlocks post (tokBlock (tokenStr gn) none msg (runBlocks pre p)) := by
    simp [runBlocks, List.foldl_append]
  rw [hsplit]
  obtain ⟨A2, hA2, -⟩ := runBlocks_decomp post (tokBlock (tokenStr gn) none msg (runBlocks pre p))
  rw [hA2, List.count_append]
  have hc2 : strContains (runBlocks pre p).1 (tokenStr gn) = true :=
    runBlocks_survives gn hgn pre hpre p hc
  rw [tokBlock_snd]
  rw [if_pos ⟨hc2, rfl⟩]
  obtain ⟨A1, hA1, -⟩ := runBlocks_decomp pre p
  rw [hA1, List.count_append, List.count_append]
  have : msg ∈ ([msg] : List Str) := List.mem_singleton.mpr rfl
  simp [List.count_singleton]
  omega

/-! ## After stripping, no completable token remains -/

/-- Every `{` in `S` is either immediately closed or never closed: the
shape left behind by the `TOKEN_REGEX` strip, under which no occurrence
of a token `\{[^}]+\}` can exist. -/
def BraceInv (S : Str) : Prop :=
  ∀ u v : Str, S = u ++ '{' :: v → v = [] ∨ (∃ v2, v = '}' :: v2) ∨ '}' ∉ v

theorem nil_ne_append_cons (u v : Str) : ([] : Str) ≠ u ++ '{' :: v := by
  intro h
  have hlen := congrArg List.length h
  simp only [List.length_nil, List.length_append, List.length_cons] at hlen
  omega

theorem braceInv_nil : BraceInv [] := by
  intro u v h
  exact absurd h (nil_ne_append_cons u v)

theorem cons_eq_append_cons {a : Char} {Q u v : Str} (h : a :: Q = u ++ '{' :: v) :
    (u = [] ∧ a = '{' ∧ v = Q) ∨ (∃ u2, u = a :: u2 ∧ Q = u2 ++ '{' :: v) := by
  cases u with
  | nil =>
    simp only [List.nil_append, List.cons.injEq] at h
    exact Or.inl ⟨rfl, h.1, h.2.symm⟩
  | cons b u2 =>
    simp only [List.cons_append, List.cons.injEq] at h
    exact Or.inr ⟨u2, by rw [h.1], h.2⟩

theorem stripScanF_subset :
    ∀ (fuel : Nat) (s : Str) (c : Char), c ∈ (stripScanF fuel s).1 → c ∈ s := by
  intro fuel
  induction fuel with
  | zero => intro s c h; exact h
  | succ fuel ih =>
    intro s c h
    match s with
    | [] => simpa [stripScanF] using h
    | c2 :: rest =>
      simp only [stripScanF] at h
      by_cases hb : c2 = '{'
      · rw [if_pos hb] at h
        by_cases hm : rest.takeWhile (fun x => x != '}') ≠ [] ∧
            rest.drop (rest.takeWhile (fun x => x != '}')).length ≠ []
        · rw [if_pos hm] at h
          have h2 := ih _ _ h
          exact List.mem_cons_of_mem _ (List.mem_of_mem_drop h2)
        · rw [if_neg hm] at h
          rcases List.mem_cons.mp h with h | h
          · exact h ▸ hb ▸ List.mem_cons_self _ _
          · exact List.mem_cons_of_mem _ (ih _ _ h)
      · rw [if_neg hb] at h
        rcases List.mem_cons.mp h with h | h
        · exact h ▸ List.mem_cons_self _ _
        · exact List.mem_cons_of_mem _ (ih _ _ h)

theorem takeWhile_nil_cases (rest : Str) (h : rest.takeWhile (fun x => x != '}') = []) :
    rest = [] ∨ ∃ r2, rest = '}' :: r2 := by
  cases rest with
  | nil => exact Or.inl rfl
  | cons hd r2 =>
    right
    simp only [List.takeWhile_cons] at h
    by_cases hh : (hd != '}') = true
    · rw [if_pos hh] at h
      cases h
    · have : hd = '}' := by simpa [bne] using hh
      exact ⟨r2, by rw [this]⟩

theorem drop_takeWhile_nil (rest : Str)
    (h : rest.drop (rest.takeWhile (fun x => x != '}')).length = []) :
    ∀ c ∈ rest, c ≠ '}' := by
  have hlen : rest.length ≤ (rest.takeWhile (fun x => x != '}')).length :=
    List.drop_eq_nil_iff.mp h
  have hpre := List.takeWhile_prefix (l := rest) (p := fun x => x != '}')
  have heq : rest.takeWhile (fun x => x != '}') = rest :=
    hpre.eq_of_length (le_antisymm hpre.length_le hlen)
  intro c hc
  have := List.mem_takeWhile_imp (heq.symm ▸ hc)
  simpa [bne] using this

theorem stripScanF_inv :
    ∀ (fuel : Nat) (s : Str), s.length < fuel → BraceInv (stripScanF fuel s).1 := by
  intro fuel
  induction fuel with
  | zero => intro s h; omega
  | succ fuel ih =>
    intro s hs
    match s with
    | [] =>
      show BraceInv ([] : Str)
      exact braceInv_nil
    | c2 :: rest =>
      have hrest : rest.length < fuel := by
        simp only [List.length_cons] at hs
        omega
      simp only [stripScanF]
      by_cases hb : c2 = '{'
      · rw [if_pos hb]
        by_cases hm : rest.takeWhile (fun x => x != '}') ≠ [] ∧
            rest.drop (rest.takeWhile (fun x => x != '}')).length ≠ []
        · rw [if_pos hm]
          have hlen2 : (rest.drop ((rest.takeWhile (fun x => x != '}')).length + 1)).length
              < fuel := by
            have := List.length_drop ((rest.takeWhile (fun x => x != '}')).length + 1) rest
            omega
          exact ih _ hlen2
        · rw [if_neg hm]
          intro u v huv
          rcases cons_eq_append_cons huv with ⟨-, -, hv⟩ | ⟨u2, -, hQ⟩
          · subst hv
            push_neg at hm
            by_cases hn : rest.takeWhile (fun x => x != '}') = []
            · rcases takeWhile_nil_cases rest hn with hr | ⟨r2, hr⟩
              · subst hr
                left
                cases fuel with
                | zero => rfl
                | succ fuel2 => rfl
              · subst hr
                right; left
                cases fuel with
                | zero => omega
                | succ fuel2 =>
                  refine ⟨(stripScanF fuel2 r2).1, ?_⟩
                  show (stripScanF (fuel2 + 1) ('}' :: r2)).1 = '}' :: (stripScanF fuel2 r2).1
                  simp only [stripScanF]
                  rw [if_neg (by decide : ¬('}' = '{'))]
            · have hdrop := hm hn
              have hall := drop_takeWhile_nil rest hdrop
              right; right
              intro hmem
              exact hall '}' (stripScanF_subset fuel rest '}' hmem) rfl
          · exact ih rest hrest u2 v hQ
      · rw [if_neg hb]
        intro u v huv
        rcases cons_eq_append_cons huv with ⟨-, hc, -⟩ | ⟨u2, -, hQ⟩
        · exact absurd hc hb
        · exact ih rest hrest u2 v hQ

theorem filter_decomp (p : Char → Bool) :
    ∀ (S u v : Str), S.filter p = u ++ '{' :: v →
      ∃ u0 v0, S = u0 ++ '{' :: v0 ∧ v = v0.filter p := by
  intro S
  induction S with
  | nil =>
    intro u v h
    simp only [List.filter_nil] at h
    exact absurd h (nil_ne_append_cons u v)
  | cons c S2 ih =>
    intro u v h
    simp only [List.filter_cons] at h
    by_cases hc : p c = true
    · rw [if_pos hc] at h
      rcases cons_eq_append_cons h with ⟨-, hcb, hv⟩ | ⟨u2, -, hQ⟩
      · exact ⟨[], S2, by simp only [List.nil_append]; rw [hcb], hv⟩
      · obtain ⟨u0, v0, hS, hv⟩ := ih u2 v hQ
        exact ⟨c :: u0, v0, by rw [hS, List.cons_append], hv⟩
    · rw [if_neg hc] at h
      obtain ⟨u0, v0, hS, hv⟩ := ih u v h
      exact ⟨c :: u0, v0, by rw [hS, List.cons_append], hv⟩

theorem collapse_decomp (p : Char → Bool) (rep : Char) (hrep : rep ≠ '{') :
    ∀ (S : Str) (b : Bool) (u v : Str), collapseAux p rep b S = u ++ '{' :: v →
      ∃ u0 v0, S = u0 ++ '{' :: v0 ∧ v = collapseAux p rep false v0 := by
  intro S
  induction S with
  | nil =>
    intro b u v h
    simp only [collapseAux] at h
    exact absurd h (nil_ne_append_cons u v)
  | cons c S2 ih =>
    intro b u v h
    simp only [collapseAux] at h
    by_cases hc : p c = true
    · rw [if_pos hc] at h
      cases b with
      | true =>
        simp only [if_true] at h
        obtain ⟨u0, v0, hS, hv⟩ := ih true u v h
        exact ⟨c :: u0, v0, by rw [hS, List.cons_append], hv⟩
      | false =>
        simp only [Bool.false_eq_true, if_false] at h
        rcases cons_eq_append_cons h with ⟨-, hcb, -⟩ | ⟨u2, -, hQ⟩
        · exact absurd hcb hrep
        · obtain ⟨u0, v0, hS, hv⟩ := ih true u2 v hQ
          exact ⟨c :: u0, v0, by rw [hS, List.cons_append], hv⟩
    · rw [if_neg hc] at h
      rcases cons_eq_append_cons h with ⟨-, hcb, hv⟩ | ⟨u2, -, hQ⟩
      · exact ⟨[], S2, by simp only [List.nil_append]; rw [hcb], hv⟩
      · obtain ⟨u0, v0, hS, hv⟩ := ih false u2 v hQ
        exact ⟨c :: u0, v0, by rw [hS, List.cons_append], hv⟩

theorem braceInv_filter (p : Char → Bool) (hq : p '}' = true) (S : Str) (h : BraceInv S) :
    BraceInv (S.filter p) := by
  intro u v heq
  obtain ⟨u0, v0, hS, hv⟩ := filter_decomp p S u v heq
  rcases h u0 v0 hS with h0 | ⟨v2, h0⟩ | h0
  · subst h0
    exact Or.inl (by simpa using hv)
  · subst h0
    right; left
    rw [hv]
    simp only [List.filter_cons, hq, if_true]
    exact ⟨v2.filter p, rfl⟩
  · right; right
    rw [hv]
    intro hmem
    exact h0 (List.mem_of_mem_filter hmem)

theorem braceInv_collapse (p : Char → Bool) (rep : Char) (hq : p '}' = false)
    (hrep : rep ≠ '{') (hrek : rep ≠ '}') (S : Str) (h : BraceInv S) :
    BraceInv (collapse p rep S) := by
  intro u v heq
  obtain ⟨u0, v0, hS, hv⟩ := collapse_decomp p rep hrep S false u v heq
  rcases h u0 v0 hS with h0 | ⟨v2, h0⟩ | h0
  · subst h0
    exact Or.inl (by simpa [collapseAux] using hv)
  · subst h0
    right; left
    rw [hv]
    simp only [collapseAux, hq, Bool.false_eq_true, if_false]
    exact ⟨collapseAux p rep false v2, rfl⟩
  · right; right
    rw [hv]
    intro hmem
    rcases collapseAux_mem p rep v0 false '}' hmem with hx | ⟨hx, -⟩
    · exact hrek hx.symm
    · exact h0 hx

theorem braceInv_sanitize (S : Str) (h : BraceInv S) : BraceInv (sanitizeForFilename S) := by
  show BraceInv (collapse isUnd '_' (collapse isJsWs '_' (S.filter (fun c => !isIllegal c))))
  apply braceInv_collapse isUnd '_' (by decide) (by decide) (by decide)
  apply braceInv_collapse isJsWs '_' (by decide) (by decide) (by decide)
  exact braceInv_filter _ (by decide) S h

theorem not_contains_of_braceInv (S : Str) (h : BraceInv S) (n : Str) (hn : TokName n) :
    strContains S (tokenStr n) = false := by
  rw [Bool.eq_false_iff]
  intro hc
  rw [strContains_iff] at hc
  obtain ⟨x, y, hxy⟩ := hc
  have hshape : (x ++ tokenStr n) ++ y = x ++ '{' :: (n ++ '}' :: y) := by
    simp [tokenStr]
  rw [hshape] at hxy
  rcases h x (n ++ '}' :: y) hxy.symm with h0 | ⟨v2, h0⟩ | h0
  · exact absurd (congrArg List.length h0) (by simp)
  · obtain ⟨n0, n2, hn0⟩ : ∃ n0 n2, n = n0 :: n2 := by
      cases n with
      | nil => exact absurd rfl hn.1
      | cons a b => exact ⟨a, b, rfl⟩
    rw [hn0] at h0
    simp only [List.cons_append] at h0
    have := (List.cons.injEq .. ▸ h0).1
    exact (hn.2 n0 (hn0 ▸ List.mem_cons_self _ _)).2 this
  · exact h0 (List.mem_append_right _ (List.mem_cons_self _ _))

theorem stripUnresolved_fst_braceInv (s : Str) : BraceInv (stripUnresolved s).1 :=
  stripScanF_inv _ _ (Nat.lt_succ_self _)

theorem resolveTokens_fst_braceInv (t : Str) (ex : Option ExifData) (orig : Str)
    (opts : RenameOptions) (now : JsDate) :
    BraceInv (resolveTokens t ex orig opts now).1 := by
  simp only [resolveTokens]
  exact stripUnresolved_fst_braceInv _

/-- No brace-delimited token survives into the sanitized base name: the
unresolved-token strip removes every `\{[^}]+\}` occurrence and the
sanitizer cannot create one. -/
theorem sanitized_base_no_token (t : Str) (ex : Option ExifData) (orig : Str)
    (opts : RenameOptions) (now : JsDate) (n : Str) (hn : TokName n) :
    strContains (sanitizeForFilename (resolveTokens t ex orig opts now).1) (tokenStr n) =
      false :=
  not_contains_of_braceInv _ (braceInv_sanitize _ (resolveTokens_fst_braceInv t ex orig opts now))
    n hn

/-! ## Warning bookkeeping of the full pipeline -/

theorem generateFilename_warnings (t : Str) (ex : Option ExifData) (orig : Str)
    (opts : RenameOptions) (now : JsDate) :
    (generateFilename t ex orig opts now).warnings.getD [] =
      (resolveTokens t ex orig opts now).2 := by
  simp only [generateFilename]
  by_cases h : (resolveTokens t ex orig opts now).2 = []
  · rw [if_neg (not_not_intro h), h]
    rfl
  · rw [if_pos h]
    rfl

theorem ne_unresolved (msg : Str) (c : Char) (hc : msg.head? = some c) (hne : c ≠ 'U') :
    ∀ j : Str, msg ≠ unresolvedHead ++ j := by
  intro j h
  rw [h] at hc
  have h2 : (unresolvedHead ++ j).head? = some 'U' := rfl
  rw [h2] at hc
  exact hne (Option.some.inj hc).symm

theorem resolveTokens_snd_count (t : Str) (ex : Option ExifData) (orig : Str)
    (opts : RenameOptions) (now : JsDate) (msg : Str)
    (hm : ∀ j : Str, msg ≠ unresolvedHead ++ j) :
    ((resolveTokens t ex orig opts now).2).count msg =
      ((resolvePre t ex orig opts now).2).count msg := by
  simp only [resolveTokens]
  by_cases h : (stripUnresolved (resolvePre t ex orig opts now).1).2 = []
  · rw [if_neg (not_not_intro h)]
  · rw [if_pos h, List.count_append,
      List.count_eq_zero.mpr (fun hmem => hm _ (List.mem_singleton.mp hmem)),
      Nat.add_zero]

theorem resolvePre_snd_eq (t : Str) (ex : Option ExifData) (orig : Str)
    (opts : RenameOptions) (now : JsDate) :
    (resolvePre t ex orig opts now).2 = (gpsStage t ex opts now).2 := by
  simp only [resolvePre]

theorem resolvePre_count_one (t orig : Str) (opts : RenameOptions) (now : JsDate)
    (ex : Option ExifData) (n msg : Str) (hn : TokName n)
    (pre post : List (Str × Option Str × Str))
    (hsplit : camSpecs ex = pre ++ (tokenStr n, none, msg) :: post)
    (hpre : ∀ spec ∈ pre, ∃ pn, spec.1 = tokenStr pn ∧ TokName pn ∧ n ≠ pn)
    (hcam : ((camSpecs ex).map (fun sp => sp.2.2)).count msg = 1)
    (himg : ((imgSpecs ex).map (fun sp => sp.2.2)).count msg = 0)
    (hgps : ((gpsSpecs ex).map (fun sp => sp.2.2)).count msg = 0)
    (hocc : strContains (replaceDateTokens t (dateOf ex (opts.fallbackDate.getD now)))
        (tokenStr n) = true) :
    ((resolvePre t ex orig opts now).2).count msg = 1 := by
  have hcamc : ((camStage t ex opts now).2).count msg = 1 := by
    unfold camStage replaceCameraTokens
    have hle := runBlocks_count_le msg (camSpecs ex)
      (replaceDateTokens t (dateOf ex (opts.fallbackDate.getD now)), [])
    have hge := runBlocks_count_ge n hn msg pre post
      (replaceDateTokens t (dateOf ex (opts.fallbackDate.getD now)), []) hpre hocc
    rw [← hsplit] at hge
    dsimp only at hle hge
    simp only [List.count_nil] at hle hge
    omega
  have himgc : ((imgStage t ex opts now).2).count msg = 1 := by
    unfold imgStage replaceImageTokens
    rw [orientBlock_snd]
    obtain ⟨A, hA, hsub⟩ := runBlocks_decomp (imgSpecs ex) _
    rw [hA, List.count_append]
    have hz : A.count msg = 0 := Nat.le_zero.mp (himg ▸ hsub.count_le msg)
    rw [hz]
    dsimp only
    rw [Nat.add_zero]
    exact hcamc
  rw [resolvePre_snd_eq]
  unfold gpsStage replaceGPSTokens
  obtain ⟨A2, hA2, hsub2⟩ := runBlocks_decomp (gpsSpecs ex) _
  rw [hA2, List.count_append]
  have hz2 : A2.count msg = 0 := Nat.le_zero.mp (hgps ▸ hsub2.count_le msg)
  rw [hz2]
  dsimp only
  rw [Nat.add_zero]
  exact himgc

theorem dateRep_token_shapes (d : JsDate) (gn : Str)
    (h : ∀ pn ∈ dateTokenNames, gn ≠ pn) :
    ∀ pr ∈ dateReplacements d, ∃ pn, pr.1 = tokenStr pn ∧ TokName pn ∧ gn ≠ pn := by
  intro pr hpr
  simp only [dateReplacements, List.mem_cons, List.not_mem_nil, or_false] at hpr
  rcases hpr with h1|h1|h1|h1|h1|h1|h1|h1|h1|h1
  · subst h1; exact ⟨("YYYY").data, rfl, by decide, h _ (by decide)⟩
  · subst h1; exact ⟨("YY").data, rfl, by decide, h _ (by decide)⟩
  · subst h1; exact ⟨("MM").data, rfl, by decide, h _ (by decide)⟩
  · subst h1; exact ⟨("DD").data, rfl, by decide, h _ (by decide)⟩
  · subst h1; exact ⟨("HH").data, rfl, by decide, h _ (by decide)⟩
  · subst h1; exact ⟨("mm").data, rfl, by decide, h _ (by decide)⟩
  · subst h1; exact ⟨("ss").data, rfl, by decide, h _ (by decide)⟩
  · subst h1; exact ⟨("date").data, rfl, by decide, h _ (by decide)⟩
  · subst h1; exact ⟨("datetime").data, rfl, by decide, h _ (by decide)⟩
  · subst h1; exact ⟨("timestamp").data, rfl, by decide, h _ (by decide)⟩

theorem camBlockWarnsOnce (t orig : Str) (opts : RenameOptions) (now : JsDate)
    (ex : Option ExifData) (n msg : Str) (hn : TokName n)
    (hhead : ∀ j : Str, msg ≠ unresolvedHead ++ j)
    (pre post : List (Str × Option Str × Str))
    (hsplit : camSpecs ex = pre ++ (tokenStr n, none, msg) :: post)
    (hpre : ∀ spec ∈ pre, ∃ pn, spec.1 = tokenStr pn ∧ TokName pn ∧ n ≠ pn)
    (hdate : ∀ pn ∈ dateTokenNames, n ≠ pn)
    (hcam : ((camSpecs ex).map (fun sp => sp.2.2)).count msg = 1)
    (himg : ((imgSpecs ex).map (fun sp => sp.2.2)).count msg = 0)
    (hgps : ((gpsSpecs ex).map (fun sp => sp.2.2)).count msg = 0)
    (hocc : strContains t (tokenStr n) = true) :
    ((generateFilename t ex orig opts now).warnings.getD []).count msg = 1 := by
  rw [generateFilename_warnings, resolveTokens_snd_count t ex orig opts now msg hhead]
  have hocc1 : strContains (replaceDateTokens t (dateOf ex (opts.fallbackDate.getD now)))
      (tokenStr n) = true := by
    unfold replaceDateTokens
    exact foldReplace_survives n hn (dateReplacements _) (dateRep_token_shapes _ n hdate) t hocc
  exact resolvePre_count_one t orig opts now ex n msg hn pre post hsplit hpre hcam himg hgps hocc1

/-! ## Claim C3: missing-metadata warnings and the silent orientation default -/

/-- C3: for each of the seven camera/settings tokens (indexed by `i` in
source order: make, model, lens, iso, aperture, shutter, focal) occurring
in the template, when the backing EXIF field is null or the whole EXIF
record is absent, `generateFilename` appends exactly one warning
"<field> not available in EXIF data", the block substitutes the empty
string at every occurrence (its replacement value is `none`, so the pass
is a replace-all by `""` plus the warning), and no occurrence of the
token survives into the sanitized base; the orientation token instead
substitutes `"1"` when the field is absent and never warns. -/
theorem C3_missing_metadata_warnings
    (t orig : Str) (opts : RenameOptions) (now : JsDate) (ex : Option ExifData)
    (i : Nat) (hi : i < 7)
    (habsent : ∀ e : ExifData, ex = some e → camFieldMissing e i = true)
    (hocc : strContains t (tokenStr (camNames.getD i [])) = true) :
    ((generateFilename t ex orig opts now).warnings.getD []).count (camMsgs.getD i []) = 1 ∧
      ((camSpecs ex).getD i (tkMake, none, msgMake)).2.1 = none ∧
      (∀ p : Str × List Str, strContains p.1 (tokenStr (camNames.getD i [])) = true →
        tokBlock (tokenStr (camNames.getD i []))
            ((camSpecs ex).getD i (tkMake, none, msgMake)).2.1 (camMsgs.getD i []) p =
          (replaceAll (tokenStr (camNames.getD i [])) [] p.1, p.2 ++ [camMsgs.getD i []])) ∧
      strContains (sanitizeForFilename (resolveTokens t ex orig opts now).1)
          (tokenStr (camNames.getD i [])) = false ∧
      orientRep none = ("1").data ∧
      (∀ e : ExifData, e.orientation = 0 → orientRep (some e) = ("1").data) ∧
      (∀ p : Str × List Str, (orientBlock ex p).2 = p.2) := by
  interval_cases i
  · -- i = 0 : make
    have hval : repMake ex = none := by
      cases ex with
      | none => rfl
      | some e =>
        have h2 : e.make = none := Option.isNone_iff_eq_none.mp (habsent e rfl)
        simp [repMake, h2]
    have hsplit : camSpecs ex = [] ++ (tkMake, none, msgMake) ::
        [(tkModel, repModel ex, msgModel), (tkLens, repLens ex, msgLens),
         (tkIso, repIso ex, msgIso), (tkAperture, repAperture ex, msgAperture),
         (tkShutter, repShutter ex, msgShutter), (tkFocal, repFocal ex, msgFocal)] := by
      simp only [camSpecs, hval, List.nil_append]
    refine ⟨camBlockWarnsOnce t orig opts now ex (("make").data) msgMake (by decide)
        (ne_unresolved msgMake 'C' rfl (by decide)) [] _ hsplit
        (fun spec hs => absurd hs (List.not_mem_nil _)) (by decide)
        (by decide : (([msgMake, msgModel, msgLens, msgIso, msgAperture, msgShutter,
            msgFocal] : List Str)).count msgMake = 1)
        (by decide : (([msgWidth, msgHeight, msgDims] : List Str)).count msgMake = 0)
        (by decide : (([msgLat, msgLng, msgGps] : List Str)).count msgMake = 0) hocc,
      hval, ?_, sanitized_base_no_token t ex orig opts now (("make").data) (by decide),
      rfl, fun e he => by simp [orientRep, he], fun p => orientBlock_snd ex p⟩
    intro p hc
    show tokBlock (tokenStr (("make").data)) (repMake ex) msgMake p =
      (replaceAll (tokenStr (("make").data)) [] p.1, p.2 ++ [msgMake])
    rw [hval]
    unfold tokBlock
    rw [if_pos (show strContains p.1 (tokenStr (("make").data)) = true from hc)]
  · -- i = 1 : model
    have hval : repModel ex = none := by
      cases ex with
      | none => rfl
      | some e =>
        have h2 : e.model = none := Option.isNone_iff_eq_none.mp (habsent e rfl)
        simp [repModel, h2]
    have hsplit : camSpecs ex = [(tkMake, repMake ex, msgMake)] ++ (tkModel, none, msgModel) ::
        [(tkLens, repLens ex, msgLens),
         (tkIso, repIso ex, msgIso), (tkAperture, repAperture ex, msgAperture),
         (tkShutter, repShutter ex, msgShutter), (tkFocal, repFocal ex, msgFocal)] := by
      simp only [camSpecs, hval, List.cons_append, List.nil_append]
    have hpre : ∀ spec ∈ ([(tkMake, repMake ex, msgMake)] :
        List (Str × Option Str × Str)), ∃ pn, spec.1 = tokenStr pn ∧ TokName pn ∧
        (("model").data : Str) ≠ pn := by
      intro spec hs
      simp only [List.mem_cons, List.not_mem_nil, or_false] at hs
      subst hs
      exact ⟨("make").data, rfl, by decide, by decide⟩
    refine ⟨camBlockWarnsOnce t orig opts now ex (("model").data) msgModel (by decide)
        (ne_unresolved msgModel 'C' rfl (by decide)) _ _ hsplit hpre (by decide)
        (by decide : (([msgMake, msgModel, msgLens, msgIso, msgAperture, msgShutter,
            msgFocal] : List Str)).count msgModel = 1)
        (by decide : (([msgWidth, msgHeight, msgDims] : List Str)).count msgModel = 0)
        (by decide : (([msgLat, msgLng, msgGps] : List Str)).count msgModel = 0) hocc,
      hval, ?_, sanitized_base_no_token t ex orig opts now (("model").data) (by decide),
      rfl, fun e he => by simp [orientRep, he], fun p => orientBlock_snd ex p⟩
    intro p hc
    show tokBlock (tokenStr (("model").data)) (repModel ex) msgModel p =
      (replaceAll (tokenStr (("model").data)) [] p.1, p.2 ++ [msgModel])
    rw [hval]
    unfold tokBlock
    rw [if_pos (show strContains p.1 (tokenStr (("model").data)) = true from hc)]
  · -- i = 2 : lens
    have hval : repLens ex = none := by
      cases ex with
      | none => rfl
      | some e =>
        have h2 : e.lensModel = none := Option.isNone_iff_eq_none.mp (habsent e rfl)
        simp [repLens, h2]
    have hsplit : camSpecs ex =
        [(tkMake, repMake ex, msgMake), (tkModel, repModel ex, msgModel)] ++
        (tkLens, none, msgLens) ::
        [(tkIso, repIso ex, msgIso), (tkAperture, repAperture ex, msgAperture),
         (tkShutter, repShutter ex, msgShutter), (tkFocal, repFocal ex, msgFocal)] := by
      simp only [camSpecs, hval, List.cons_append, List.nil_append]
    have hpre : ∀ spec ∈ ([(tkMake, repMake ex, msgMake),
        (tkModel, repModel ex, msgModel)] :
        List (Str × Option Str × Str)), ∃ pn, spec.1 = tokenStr pn ∧ TokName pn ∧
        (("lens").data : Str) ≠ pn := by
      intro spec hs
      simp only [List.mem_cons, List.not_mem_nil, or_false] at hs
      rcases hs with h1 | h1
      · subst h1; exact ⟨("make").data, rfl, by decide, by decide⟩
      · subst h1; exact ⟨("model").data, rfl, by decide, by decide⟩
    refine ⟨camBlockWarnsOnce t orig opts now ex (("lens").data) msgLens (by decide)
        (ne_unresolved msgLens 'L' rfl (by decide)) _ _ hsplit hpre (by decide)
        (by decide : (([msgMake, msgModel, msgLens, msgIso, msgAperture, msgShutter,
            msgFocal] : List Str)).count msgLens = 1)
        (by decide : (([msgWidth, msgHeight, msgDims] : List Str)).count msgLens = 0)
        (by decide : (([msgLat, msgLng, msgGps] : List Str)).count msgLens = 0) hocc,
      hval, ?_, sanitized_base_no_token t ex orig opts now (("lens").data) (by decide),
      rfl, fun e he => by simp [orientRep, he], fun p => orientBlock_snd ex p⟩
    intro p hc
    show tokBlock (tokenStr (("lens").data)) (repLens ex) msgLens p =
      (replaceAll (tokenStr (("lens").data)) [] p.1, p.2 ++ [msgLens])
    rw [hval]
    unfold tokBlock
    rw [if_pos (show strContains p.1 (tokenStr (("lens").data)) = true from hc)]
  · -- i = 3 : iso
    have hval : repIso ex = none := by
      cases ex with
      | none => rfl
      | some e =>
        have h2 : e.iso = none := Option.isNone_iff_eq_none.mp (habsent e rfl)
        simp [repIso, h2]
    have hsplit : camSpecs ex =
        [(tkMake, repMake ex, msgMake), (tkModel, repModel ex, msgModel),
         (tkLens, repLens ex, msgLens)] ++ (tkIso, none, msgIso) ::
        [(tkAperture, repAperture ex, msgAperture),
         (tkShutter, repShutter ex, msgShutter), (tkFocal, repFocal ex, msgFocal)] := by
      simp only [camSpecs, hval, List.cons_append, List.nil_append]
    have hpre : ∀ spec ∈ ([(tkMake, repMake ex, msgMake),
        (tkModel, repModel ex, msgModel), (tkLens, repLens ex, msgLens)] :
        List (Str × Option Str × Str)), ∃ pn, spec.1 = tokenStr pn ∧ TokName pn ∧
        (("iso").data : Str) ≠ pn := by
      intro spec hs
      simp only [List.mem_cons, List.not_mem_nil, or_false] at hs
      rcases hs with h1 | h1 | h1
      · subst h1; exact ⟨("make").data, rfl, by decide, by decide⟩
      · subst h1; exact ⟨("model").data, rfl, by decide, by decide⟩
      · subst h1; exact ⟨("lens").data, rfl, by decide, by decide⟩
    refine ⟨camBlockWarnsOnce t orig opts now ex (("iso").data) msgIso (by decide)
        (ne_unresolved msgIso 'I' rfl (by decide)) _ _ hsplit hpre (by decide)
        (by decide : (([msgMake, msgModel, msgLens, msgIso, msgAperture, msgShutter,
            msgFocal] : List Str)).count msgIso = 1)
        (by decide : (([msgWidth, msgHeight, msgDims] : List Str)).count msgIso = 0)
        (by decide : (([msgLat, msgLng, msgGps] : List Str)).count msgIso = 0) hocc,
      hval, ?_, sanitized_base_no_token t ex orig opts now (("iso").data) (by decide),
      rfl, fun e he => by simp [orientRep, he], fun p => orientBlock_snd ex p⟩
    intro p hc
    show tokBlock (tokenStr (("iso").data)) (repIso ex) msgIso p =
      (replaceAll (tokenStr (("iso").data)) [] p.1, p.2 ++ [msgIso])
    rw [hval]
    unfold tokBlock
    rw [if_pos (show strContains p.1 (tokenStr (("iso").data)) = true from hc)]
  · -- i = 4 : aperture
    have hval : repAperture ex = none := by
      cases ex with
      | none => rfl
      | some e =>
        have h2 : e.fNumber = none := Option.isNone_iff_eq_none.mp (habsent e rfl)
        simp [repAperture, h2]
    have hsplit : camSpecs ex =
        [(tkMake, repMake ex, msgMake), (tkModel, repModel ex, msgModel),
         (tkLens, repLens ex, msgLens), (tkIso, repIso ex, msgIso)] ++
        (tkAperture, none, msgAperture) ::
        [(tkShutter, repShutter ex, msgShutter), (tkFocal, repFocal ex, msgFocal)] := by
      simp only [camSpecs, hval, List.cons_append, List.nil_append]
    have hpre : ∀ spec ∈ ([(tkMake, repMake ex, msgMake),
        (tkModel, repModel ex, msgModel), (tkLens, repLens ex, msgLens),
        (tkIso, repIso ex, msgIso)] :
        List (Str × Option Str × Str)), ∃ pn, spec.1 = tokenStr pn ∧ TokName pn ∧
        (("aperture").data : Str) ≠ pn := by
      intro spec hs
      simp only [List.mem_cons, List.not_mem_nil, or_false] at hs
      rcases hs with h1 | h1 | h1 | h1
      · subst h1; exact ⟨("make").data, rfl, by decide, by decide⟩
      · subst h1; exact ⟨("model").data, rfl, by decide, by decide⟩
      · subst h1; exact ⟨("lens").data, rfl, by decide, by decide⟩
      · subst h1; exact ⟨("iso").data, rfl, by decide, by decide⟩
    refine ⟨camBlockWarnsOnce t orig opts now ex (("aperture").data) msgAperture (by decide)
        (ne_unresolved msgAperture 'A' rfl (by decide)) _ _ hsplit hpre (by decide)
        (by decide : (([msgMake, msgModel, msgLens, msgIso, msgAperture, msgShutter,
            msgFocal] : List Str)).count msgAperture = 1)
        (by decide : (([msgWidth, msgHeight, msgDims] : List Str)).count msgAperture = 0)
        (by decide : (([msgLat, msgLng, msgGps] : List Str)).count msgAperture = 0) hocc,
      hval, ?_, sanitized_base_no_token t ex orig opts now (("aperture").data) (by decide),
      rfl, fun e he => by simp [orientRep, he], fun p => orientBlock_snd ex p⟩
    intro p hc
    show tokBlock (tokenStr (("aperture").data)) (repAperture ex) msgAperture p =
      (replaceAll (tokenStr (("aperture").data)) [] p.1, p.2 ++ [msgAperture])
    rw [hval]
    unfold tokBlock
    rw [if_pos (show strContains p.1 (tokenStr (("aperture").data)) = true from hc)]
  · -- i = 5 : shutter
    have hval : repShutter ex = none := by
      cases ex with
      | none => rfl
      | some e =>
        have h2 : e.exposureTime = none := Option.isNone_iff_eq_none.mp (habsent e rfl)
        simp [repShutter, h2]
    have hsplit : camSpecs ex =
        [(tkMake, repMake ex, msgMake), (tkModel, repModel ex, msgModel),
         (tkLens, repLens ex, msgLens), (tkIso, repIso ex, msgIso),
         (tkAperture, repAperture ex, msgAperture)] ++
        (tkShutter, none, msgShutter) :: [(tkFocal, repFocal ex, msgFocal)] := by
      simp only [camSpecs, hval, List.cons_append, List.nil_append]
    have hpre : ∀ spec ∈ ([(tkMake, repMake ex, msgMake),
        (tkModel, repModel ex, msgModel), (tkLens, repLens ex, msgLens),
        (tkIso, repIso ex, msgIso), (tkAperture, repAperture ex, msgAperture)] :
        List (Str × Option Str × Str)), ∃ pn, spec.1 = tokenStr pn ∧ TokName pn ∧
        (("shutter").data : Str) ≠ pn := by
      intro spec hs
      simp only [List.mem_cons, List.not_mem_nil, or_false] at hs
      rcases hs with h1 | h1 | h1 | h1 | h1
      · subst h1; exact ⟨("make").data, rfl, by decide, by decide⟩
      · subst h1; exact ⟨("model").data, rfl, by decide, by decide⟩
      · subst h1; exact ⟨("lens").data, rfl, by decide, by decide⟩
      · subst h1; exact ⟨("iso").data, rfl, by decide, by decide⟩
      · subst h1; exact ⟨("aperture").data, rfl, by decide, by decide⟩
    refine ⟨camBlockWarnsOnce t orig opts now ex (("shutter").data) msgShutter (by decide)
        (ne_unresolved msgShutter 'S' rfl (by decide)) _ _ hsplit hpre (by decide)
        (by decide : (([msgMake, msgModel, msgLens, msgIso, msgAperture, msgShutter,
            msgFocal] : List Str)).count msgShutter = 1)
        (by decide : (([msgWidth, msgHeight, msgDims] : List Str)).count msgShutter = 0)
        (by decide : (([msgLat, msgLng, msgGps] : List Str)).count msgShutter = 0) hocc,
      hval, ?_, sanitized_base_no_token t ex orig opts now (("shutter").data) (by decide),
      rfl, fun e he => by simp [orientRep, he], fun p => orientBlock_snd ex p⟩
    intro p hc
    show tokBlock (tokenStr (("shutter").data)) (repShutter ex) msgShutter p =
      (replaceAll (tokenStr (("shutter").data)) [] p.1, p.2 ++ [msgShutter])
    rw [hval]
    unfold tokBlock
    rw [if_pos (show strContains p.1 (tokenStr (("shutter").data)) = true from hc)]
  · -- i = 6 : focal
    have hval : repFocal ex = none := by
      cases ex with
      | none => rfl
      | some e =>
        have h2 : e.focalLength = none := Option.isNone_iff_eq_none.mp (habsent e rfl)
        simp [repFocal, h2]
    have hsplit : camSpecs ex =
        [(tkMake, repMake ex, msgMake), (tkModel, repModel ex, msgModel),
         (tkLens, repLens ex, msgLens), (tkIso, repIso ex, msgIso),
         (tkAperture, repAperture ex, msgAperture),
         (tkShutter, repShutter ex, msgShutter)] ++
        (tkFocal, none, msgFocal) :: [] := by
      simp only [camSpecs, hval, List.cons_append, List.nil_append]
    have hpre : ∀ spec ∈ ([(tkMake, repMake ex, msgMake),
        (tkModel, repModel ex, msgModel), (tkLens, repLens ex, msgLens),
        (tkIso, repIso ex, msgIso), (tkAperture, repAperture ex, msgAperture),
        (tkShutter, repShutter ex, msgShutter)] :
        List (Str × Option Str × Str)), ∃ pn, spec.1 = tokenStr pn ∧ TokName pn ∧
        (("focal").data : Str) ≠ pn := by
      intro spec hs
      simp only [List.mem_cons, List.not_mem_nil, or_false] at hs
      rcases hs with h1 | h1 | h1 | h1 | h1 | h1
      · subst h1; exact ⟨("make").data, rfl, by decide, by decide⟩
      · subst h1; exact ⟨("model").data, rfl, by decide, by decide⟩
      · subst h1; exact ⟨("lens").data, rfl, by decide, by decide⟩
      · subst h1; exact ⟨("iso").data, rfl, by decide, by decide⟩
      · subst h1; exact ⟨("aperture").data, rfl, by decide, by decide⟩
      · subst h1; exact ⟨("shutter").data, rfl, by decide, by decide⟩
    refine ⟨camBlockWarnsOnce t orig opts now ex (("focal").data) msgFocal (by decide)
        (ne_unresolved msgFocal 'F' rfl (by decide)) _ _ hsplit hpre (by decide)
        (by decide : (([msgMake, msgModel, msgLens, msgIso, msgAperture, msgShutter,
            msgFocal] : List Str)).count msgFocal = 1)
        (by decide : (([msgWidth, msgHeight, msgDims] : List Str)).count msgFocal = 0)
        (by decide : (([msgLat, msgLng, msgGps] : List Str)).count msgFocal = 0) hocc,
      hval, ?_, sanitized_base_no_token t ex orig opts now (("focal").data) (by decide),
      rfl, fun e he => by simp [orientRep, he], fun p => orientBlock_snd ex p⟩
    intro p hc
    show tokBlock (tokenStr (("focal").data)) (repFocal ex) msgFocal p =
      (replaceAll (tokenStr (("focal").data)) [] p.1, p.2 ++ [msgFocal])
    rw [hval]
    unfold tokBlock
    rw [if_pos (show strContains p.1 (tokenStr (("focal").data)) = true from hc)]

/-- C3 witness: the make token with an absent EXIF record yields exactly
one "Camera make not available in EXIF data" warning. -/
theorem C3_missing_metadata_warnings_witness :
    ((0 : Nat) < 7 ∧
      (∀ e : ExifData, (none : Option ExifData) = some e → camFieldMissing e 0 = true) ∧
      strContains tkMake (tokenStr (camNames.getD 0 [])) = true) ∧
    ((generateFilename tkMake none (("a.jpg").data) {} date0).warnings.getD []).count
        (camMsgs.getD 0 []) = 1 :=
  And.intro
    (And.intro (by decide)
      (And.intro (fun e h => nomatch h) (by decide)))
    ((C3_missing_metadata_warnings tkMake (("a.jpg").data) {} date0 none 0 (by decide)
      (fun e h => nomatch h) (by decide)).1)

/-! ## Claim C10: zero-valued numeric fields behave like absent fields -/

/-- C10 (implicit): metadata presence is tested by JavaScript truthiness,
so a present numeric field equal to `0` is treated exactly like an absent
field: for iso, aperture (fNumber), focal length, shutter (exposureTime),
width and height the whole pass is equal to the pass on the record with
the field removed; a zero GPS latitude/longitude makes the replacement
value `none` exactly as when the `gps` record is absent, and when the
corresponding token occurs the "not available" warning is appended (shown
for `{lat}`, `{lng}` and `{iso}`). -/
theorem C10_zero_treated_as_absent (e : ExifData) (g : GPSData) (t : Str) (w : List Str) :
    replaceCameraTokens t (some { e with iso := some 0 }) w =
        replaceCameraTokens t (some { e with iso := none }) w ∧
      replaceCameraTokens t (some { e with fNumber := some 0 }) w =
        replaceCameraTokens t (some { e with fNumber := none }) w ∧
      replaceCameraTokens t (some { e with focalLength := some 0 }) w =
        replaceCameraTokens t (some { e with focalLength := none }) w ∧
      replaceCameraTokens t (some { e with exposureTime := some (Sum.inl 0) }) w =
        replaceCameraTokens t (some { e with exposureTime := none }) w ∧
      replaceImageTokens t (some { e with width := some 0 }) w =
        replaceImageTokens t (some { e with width := none }) w ∧
      replaceImageTokens t (some { e with height := some 0 }) w =
        replaceImageTokens t (some { e with height := none }) w ∧
      repLat (some { e with gps := some { g with lat := 0 } }) =
        repLat (some { e with gps := none }) ∧
      repLng (some { e with gps := some { g with lng := 0 } }) =
        repLng (some { e with gps := none }) ∧
      (strContains t tkLat = true →
        ((replaceGPSTokens t (some { e with gps := some { g with lat := 0 } }) w).2).count
            msgLat = w.count msgLat + 1) ∧
      (strContains t tkLng = true →
        ((replaceGPSTokens t (some { e with gps := some { g with lng := 0 } }) w).2).count
            msgLng = w.count msgLng + 1) ∧
      (strContains t tkIso = true →
        ((replaceCameraTokens t (some { e with iso := some 0 }) w).2).count
            msgIso = w.count msgIso + 1) := by
  have hdw : repDims (some { e with width := some 0 }) =
      repDims (some { e with width := none }) := by
    simp only [repDims.eq_def]
    cases e.height with
    | none => rfl
    | some q => simp
  have hdh : repDims (some { e with height := some 0 }) =
      repDims (some { e with height := none }) := by
    simp only [repDims.eq_def]
    cases e.width with
    | none => rfl
    | some q => simp
  have hw : replaceImageTokens t (some { e with width := some 0 }) w =
      replaceImageTokens t (some { e with width := none }) w := by
    unfold replaceImageTokens orientBlock
    rw [show imgSpecs (some { e with width := some 0 }) =
        imgSpecs (some { e with width := none }) from by
      simp only [imgSpecs]
      rw [show repWidth (some { e with width := some 0 }) =
          repWidth (some { e with width := none }) from rfl,
        show repHeight (some { e with width := some 0 }) =
          repHeight (some { e with width := none }) from rfl, hdw]]
    rw [show orientRep (some { e with width := some 0 }) =
        orientRep (some { e with width := none }) from rfl]
  have hh : replaceImageTokens t (some { e with height := some 0 }) w =
      replaceImageTokens t (some { e with height := none }) w := by
    unfold replaceImageTokens orientBlock
    rw [show imgSpecs (some { e with height := some 0 }) =
        imgSpecs (some { e with height := none }) from by
      simp only [imgSpecs]
      rw [show repWidth (some { e with height := some 0 }) =
          repWidth (some { e with height := none }) from rfl,
        show repHeight (some { e with height := some 0 }) =
          repHeight (some { e with height := none }) from rfl, hdh]]
    rw [show orientRep (some { e with height := some 0 }) =
        orientRep (some { e with height := none }) from rfl]
  refine ⟨rfl, rfl, rfl, rfl, hw, hh, rfl, rfl, ?_, ?_, ?_⟩
  · -- a zero latitude warns at the first GPS block
    intro hlat
    unfold replaceGPSTokens
    have hsplit : gpsSpecs (some { e with gps := some { g with lat := 0 } }) =
        [] ++ (tokenStr (("lat").data), none, msgLat) ::
        [(tkLng, repLng (some { e with gps := some { g with lat := 0 } }), msgLng),
         (tkGps, repGpsPair (some { e with gps := some { g with lat := 0 } }), msgGps)] := by
      simp only [gpsSpecs,
        show repLat (some { e with gps := some { g with lat := 0 } }) = none from rfl,
        List.nil_append]
      rfl
    have hle := runBlocks_count_le msgLat
      (gpsSpecs (some { e with gps := some { g with lat := 0 } })) (t, w)
    have hge := runBlocks_count_ge (("lat").data) (by decide) msgLat []
      [(tkLng, repLng (some { e with gps := some { g with lat := 0 } }), msgLng),
       (tkGps, repGpsPair (some { e with gps := some { g with lat := 0 } }), msgGps)]
      (t, w) (fun spec hs => absurd hs (List.not_mem_nil _)) hlat
    rw [← hsplit] at hge
    dsimp only at hle hge
    have hmap : ((gpsSpecs (some { e with gps := some { g with lat := 0 } })).map
        (fun sp => sp.2.2)).count msgLat = 1 :=
      (by decide : (([msgLat, msgLng, msgGps] : List Str)).count msgLat = 1)
    omega
  · -- a zero longitude warns at the second GPS block
    intro hlng
    unfold replaceGPSTokens
    have hsplit : gpsSpecs (some { e with gps := some { g with lng := 0 } }) =
        [(tkLat, repLat (some { e with gps := some { g with lng := 0 } }), msgLat)] ++
        (tokenStr (("lng").data), none, msgLng) ::
        [(tkGps, repGpsPair (some { e with gps := some { g with lng := 0 } }), msgGps)] := by
      simp only [gpsSpecs,
        show repLng (some { e with gps := some { g with lng := 0 } }) = none from rfl,
        List.cons_append, List.nil_append]
      rfl
    have hpre : ∀ spec ∈ ([(tkLat,
        repLat (some { e with gps := some { g with lng := 0 } }), msgLat)] :
        List (Str × Option Str × Str)), ∃ pn, spec.1 = tokenStr pn ∧ TokName pn ∧
        (("lng").data : Str) ≠ pn := by
      intro spec hs
      simp only [List.mem_cons, List.not_mem_nil, or_false] at hs
      subst hs
      exact ⟨("lat").data, rfl, by decide, by decide⟩
    have hle := runBlocks_count_le msgLng
      (gpsSpecs (some { e with gps := some { g with lng := 0 } })) (t, w)
    have hge := runBlocks_count_ge (("lng").data) (by decide) msgLng
      [(tkLat, repLat (some { e with gps := some { g with lng := 0 } }), msgLat)]
      [(tkGps, repGpsPair (some { e with gps := some { g with lng := 0 } }), msgGps)]
      (t, w) hpre hlng
    rw [← hsplit] at hge
    dsimp only at hle hge
    have hmap : ((gpsSpecs (some { e with gps := some { g with lng := 0 } })).map
        (fun sp => sp.2.2)).count msgLng = 1 :=
      (by decide : (([msgLat, msgLng, msgGps] : List Str)).count msgLng = 1)
    omega
  · -- a zero ISO warns at the fourth camera block
    intro hiso
    unfold replaceCameraTokens
    have hsplit : camSpecs (some { e with iso := some 0 }) =
        [(tkMake, repMake (some { e with iso := some 0 }), msgMake),
         (tkModel, repModel (some { e with iso := some 0 }), msgModel),
         (tkLens, repLens (some { e with iso := some 0 }), msgLens)] ++
        (tokenStr (("iso").data), none, msgIso) ::
        [(tkAperture, repAperture (some { e with iso := some 0 }), msgAperture),
         (tkShutter, repShutter (some { e with iso := some 0 }), msgShutter),
         (tkFocal, repFocal (some { e with iso := some 0 }), msgFocal)] := by
      simp only [camSpecs, show repIso (some { e with iso := some 0 }) = none from rfl,
        List.cons_append, List.nil_append]
      rfl
    have hpre : ∀ spec ∈ ([(tkMake, repMake (some { e with iso := some 0 }), msgMake),
        (tkModel, repModel (some { e with iso := some 0 }), msgModel),
        (tkLens, repLens (some { e with iso := some 0 }), msgLens)] :
        List (Str × Option Str × Str)), ∃ pn, spec.1 = tokenStr pn ∧ TokName pn ∧
        (("iso").data : Str) ≠ pn := by
      intro spec hs
      simp only [List.mem_cons, List.not_mem_nil, or_false] at hs
      rcases hs with h1 | h1 | h1
      · subst h1; exact ⟨("make").data, rfl, by decide, by decide⟩
      · subst h1; exact ⟨("model").data, rfl, by decide, by decide⟩
      · subst h1; exact ⟨("lens").data, rfl, by decide, by decide⟩
    have hle := runBlocks_count_le msgIso (camSpecs (some { e with iso := some 0 })) (t, w)
    have hge := runBlocks_count_ge (("iso").data) (by decide) msgIso
      [(tkMake, repMake (some { e with iso := some 0 }), msgMake),
       (tkModel, repModel (some { e with iso := some 0 }), msgModel),
       (tkLens, repLens (some { e with iso := some 0 }), msgLens)]
      [(tkAperture, repAperture (some { e with iso := some 0 }), msgAperture),
       (tkShutter, repShutter (some { e with iso := some 0 }), msgShutter),
       (tkFocal, repFocal (some { e with iso := some 0 }), msgFocal)]
      (t, w) hpre hiso
    rw [← hsplit] at hge
    dsimp only at hle hge
    have hmap : ((camSpecs (some { e with iso := some 0 })).map
        (fun sp => sp.2.2)).count msgIso = 1 :=
      (by decide : (([msgMake, msgModel, msgLens, msgIso, msgAperture, msgShutter,
          msgFocal] : List Str)).count msgIso = 1)
    omega

/-- C10 witness: GPS latitude exactly 0 with the `{lat}` template yields
the "GPS latitude not available" warning. -/
theorem C10_zero_treated_as_absent_witness :
    strContains tkLat tkLat = true ∧
    ((replaceGPSTokens tkLat
        (some { (⟨none, none, none, none, none, none, none, none, none, none, 1,
            none⟩ : ExifData) with
          gps := some { (⟨1, 2, none⟩ : GPSData) with lat := 0 } })
        []).2).count msgLat = ([] : List Str).count msgLat + 1 :=
  ⟨by decide,
    ((C10_zero_treated_as_absent
        (⟨none, none, none, none, none, none, none, none, none, none, 1, none⟩ : ExifData)
        (⟨1, 2, none⟩ : GPSData) tkLat []).2.2.2.2.2.2.2.2.1) (by decide)⟩

end PPR
